import Mathlib

/-! # Verification of the python-scripts repository

Shallow embedding of `pink_product_tagger.py`, `shopify-metafields-transfer.py`
and `metafields_to_csv.py`, together with theorems settling the specification's
claims.  Strings are modelled through their character lists; the Python string
primitives the scripts rely on (`int(s, 16)` on two-character slices,
`str.strip`, `str.lower`, `str.split(',')`, `", ".join`, substring tests,
`startswith`, `sorted`) are modelled for ASCII input, which is the alphabet the
scripts traffic in.  Network transport is modelled by oracles: a list of
responses for the pagination loops, lookup/outcome functions for the import
reconciler.  A transport call that returns the failure sentinel (Python `None`)
is `TResp.failure`. -/

namespace Py

/-- ASCII whitespace accepted as padding by Python `int()`.  CPython's
`int()` strips only these six characters (and a few Unicode spaces); it
rejects the separators U+001C-U+001F. -/
def isPySpace (c : Char) : Bool :=
  c = ' ' || c = '\t' || c = '\n' || c = '\r' || c = '\x0b' || c = '\x0c'

/-- Characters for which Python's `str.isspace()` is true, hence exactly
what `str.strip()` removes: ASCII whitespace, the file/group/record/unit
separators U+001C-U+001F, and the Unicode space characters (U+0085,
U+00A0, U+1680, U+2000-U+200A, U+2028, U+2029, U+202F, U+205F, U+3000).
Strictly wider than `isPySpace`: `'\x1cblue'.strip()` is `'blue'` although
`int('\x1c5', 16)` raises. -/
def isStrSpace (c : Char) : Bool :=
  isPySpace c || (0x1c ≤ c.toNat ∧ c.toNat ≤ 0x1f) || c.toNat = 0x85 ||
  c.toNat = 0xa0 || c.toNat = 0x1680 ||
  (0x2000 ≤ c.toNat ∧ c.toNat ≤ 0x200a) || c.toNat = 0x2028 ||
  c.toNat = 0x2029 || c.toNat = 0x202f || c.toNat = 0x205f || c.toNat = 0x3000

/-- Value of an ASCII hexadecimal digit, `none` for any other character. -/
def hexVal? (c : Char) : Option Nat :=
  if '0' ≤ c ∧ c ≤ '9' then some (c.toNat - '0'.toNat)
  else if 'a' ≤ c ∧ c ≤ 'f' then some (c.toNat - 'a'.toNat + 10)
  else if 'A' ≤ c ∧ c ≤ 'F' then some (c.toNat - 'A'.toNat + 10)
  else none

/-- Python `int(s, 16)` on a two-character string `s = [c0, c1]` (ASCII model).
CPython accepts two hexadecimal digits, or a single digit preceded by a sign
(`+`/`-`) or padded by whitespace on either side; everything else raises
`ValueError`, modelled as `none`. -/
def pyIntHex2 (c0 c1 : Char) : Option Int :=
  match hexVal? c0, hexVal? c1 with
  | some v0, some v1 => some (16 * (v0 : Int) + (v1 : Int))
  | none, some v1 =>
      if c0 = '+' then some (v1 : Int)
      else if c0 = '-' then some (-(v1 : Int))
      else if isPySpace c0 then some (v1 : Int)
      else none
  | some v0, none => if isPySpace c1 then some (v0 : Int) else none
  | none, none => none

/-- Python `str.strip()` on a character list: drops leading and trailing
characters satisfying `str.isspace()`. -/
def stripChars (l : List Char) : List Char :=
  ((l.dropWhile isStrSpace).reverse.dropWhile isStrSpace).reverse

/-- Python `str.strip()`. -/
def pyStrip (s : String) : String :=
  ⟨stripChars s.data⟩

/-- Python `str.lower()` (ASCII model). -/
def pyLower (s : String) : String :=
  ⟨s.data.map Char.toLower⟩

/-- Python `s.split(',')` on a character list: `[[]]` for the empty string,
empty pieces kept, exactly as in Python. -/
def splitCommaList : List Char → List (List Char)
  | [] => [[]]
  | c :: cs =>
      let r := splitCommaList cs
      if c = ',' then [] :: r
      else (c :: r.headD []) :: r.tail

/-- Python `sep.join(parts)`. -/
def pyJoin (sep : String) : List String → String
  | [] => ""
  | [t] => t
  | t :: ts => t ++ sep ++ pyJoin sep ts

/-- Boolean list-prefix test. -/
def prefB : List Char → List Char → Bool
  | [], _ => true
  | _ :: _, [] => false
  | a :: as, b :: bs => a = b && prefB as bs

/-- Boolean list-infix test: `pat` occurs contiguously in the second list. -/
def infB (pat : List Char) : List Char → Bool
  | [] => pat.isEmpty
  | c :: cs => prefB pat (c :: cs) || infB pat cs

/-- Python `pat in s` (substring containment). -/
def strContains (s pat : String) : Bool :=
  infB pat.data s.data

/-- Python `s.startswith(pre)`. -/
def pyStartsWith (s pre : String) : Bool :=
  prefB pre.data s.data

/-- Lexicographic order on character lists by code point, as Python compares
strings. -/
def lexLe : List Char → List Char → Bool
  | [], _ => true
  | _ :: _, [] => false
  | a :: as, b :: bs =>
      if a.toNat < b.toNat then true
      else if b.toNat < a.toNat then false
      else lexLe as bs

/-- Python string `<=`. -/
def strLe (a b : String) : Bool :=
  lexLe a.data b.data

/-- Python `sorted` on a list of strings (the result is the unique ordering of
the input that is sorted by `strLe`, which is all the scripts use). -/
def sortStrings (l : List String) : List String :=
  l.insertionSort (fun a b => strLe a b = true)

/-- Python `s.title()` (ASCII model): an alphabetic character is uppercased
after a non-alphabetic character and lowercased otherwise. -/
def pyTitleAux : Bool → List Char → List Char
  | _, [] => []
  | prevAlpha, c :: cs =>
      if c.isAlpha then
        (if prevAlpha then c.toLower else c.toUpper) :: pyTitleAux true cs
      else c :: pyTitleAux false cs

/-- Python `s.title()`. -/
def pyTitle (s : String) : String :=
  ⟨pyTitleAux false s.data⟩

/-- A transport response: `failure` is the `None` sentinel returned by
`ShopifyGraphQL.execute` on any exception or non-200 status, `ok d` is a parsed
body whose relevant data block is `d` (`none` when the block is absent or
empty, i.e. falsy in Python). -/
inductive TResp (α : Type) where
  | failure : TResp α
  | ok : Option α → TResp α
deriving DecidableEq

end Py

namespace Transfer

/-- One metafield as exported (`namespace`/`key` are indexed directly in the
source, `type`/`value` are fetched with `.get`, hence optional). -/
structure Metafield where
  ns : String
  key : String
  type : Option String
  value : Option String
deriving DecidableEq

/-- One product or collection node as returned by a page of the export query,
which is also the record shape appended by the export loop (the loop copies
id/handle/title/metafields unchanged). -/
structure OwnerNode where
  id : String
  handle : Option String
  title : Option String
  metafields : List Metafield
deriving DecidableEq

structure PageInfo where
  hasNextPage : Bool
  endCursor : Option String
deriving DecidableEq

/-- A truthy `products`/`collections` block of one response. -/
structure Page where
  pageInfo : PageInfo
  nodes : List OwnerNode
deriving DecidableEq

/-- The shared while-loop of `export_products_metafields` and
`export_collections_metafields`, driven by the list of transport responses (one
per `client.execute` call, in call order).  On `TResp.failure` the source
immediately evaluates `body.get("data", {})` with `body = None`, which raises
`AttributeError`; on an absent/falsy data block the loop breaks and returns the
accumulator; otherwise the page's nodes are appended and the loop continues
while `pageInfo.hasNextPage` holds.  An exhausted response list means the loop
would issue a further call the oracle does not answer, reported as a distinct
error so that no theorem can mistake it for termination. -/
def exportLoop : List (Py.TResp Page) → List OwnerNode → Except String (List OwnerNode)
  | [], _ => .error "transport exhausted"
  | .failure :: _, _ => .error "AttributeError"
  | .ok none :: _, acc => .ok acc
  | .ok (some page) :: rest, acc =>
      if page.pageInfo.hasNextPage then exportLoop rest (acc ++ page.nodes)
      else .ok (acc ++ page.nodes)

/-- Embeds `export_products_metafields`. -/
def export_products_metafields (resps : List (Py.TResp Page)) : Except String (List OwnerNode) :=
  exportLoop resps []

/-- Embeds `export_collections_metafields` (same loop body as the product
export; only the GraphQL query text differs in the source). -/
def export_collections_metafields (resps : List (Py.TResp Page)) : Except String (List OwnerNode) :=
  exportLoop resps []

/-- One metafield of a snapshot record read back from the export JSON
(`.get` with no default for namespace/key never misses on exported data, so
they are plain strings here; `type` is read with default
`"single_line_text_field"` at each use site, `value` may be null). -/
structure SnapMetafield where
  ns : String
  key : String
  type : Option String
  value : Option String
deriving DecidableEq

/-- One product or collection record of the snapshot consumed by
`import_metafields`. -/
structure SnapRecord where
  id : Option String
  handle : Option String
  metafields : List SnapMetafield
deriving DecidableEq

structure Snapshot where
  products : List SnapRecord
  collections : List SnapRecord
deriving DecidableEq

/-- One `metafieldsSet` input dictionary. -/
structure MfSetInput where
  ownerId : String
  ns : String
  key : String
  value : Option String
  type : String
deriving DecidableEq

/-- A mutation issued to the transport client (queries are answered by the
oracles of `ImportEnv` and are not mutations). -/
inductive MCall where
  | defCreate (ns key name ownerType typeName : String)
  | mfSet (ownerId : String) (fields : List MfSetInput)
deriving DecidableEq

/-- Embeds `create_metafield_definition`: the restricted-namespace guard comes
first and returns `None` without any call in either mode; in live mode the
mutation is issued (its created id is used only for logging in the source, so
the model returns `none` there); in dry-run mode the sentinel
`"dry_run_id"` is returned with no call. -/
def create_metafield_definition (ns key name ownerType typeName : String) (dryRun : Bool) :
    Option String × List MCall :=
  if ns = "shopify" || Py.pyStartsWith ns "shopify--" then (none, [])
  else if !dryRun then (none, [.defCreate ns key name ownerType typeName])
  else (some "dry_run_id", [])

/-- Display name `f"{ns} {key}".replace("_", " ").title()`. -/
def defName (ns key : String) : String :=
  Py.pyTitle ⟨(ns ++ " " ++ key).data.map fun c => if c = '_' then ' ' else c⟩

/-- Step 1 of `import_metafields` for one resource kind: the set of distinct
`(namespace, key, type)` triples needed, with the type defaulted.  The Python
`set` has no specified iteration order; the model uses first-occurrence order,
and every fact proved about the phase (counts, which namespaces are ever sent)
is order-independent. -/
def definitionsNeeded (records : List SnapRecord) : List (String × String × String) :=
  (records.flatMap fun r =>
    r.metafields.map fun mf => (mf.ns, mf.key, mf.type.getD "single_line_text_field")).dedup

/-- Step 2 of `import_metafields` for one resource kind: for each needed triple
whose `ns|key` identifier is not among the existing definitions, call
`create_metafield_definition` and unconditionally increment the counter. -/
def defsCombine (ownerType : String) (existing : List String) (dryRun : Bool)
    (acc : Nat × List MCall) (t : String × String × String) : Nat × List MCall :=
  if existing.contains (t.1 ++ "|" ++ t.2.1) then acc
  else
    let r := create_metafield_definition t.1 t.2.1 (defName t.1 t.2.1) ownerType t.2.2 dryRun
    (acc.1 + 1, acc.2 ++ r.2)

def defsPhase (ownerType : String) (existing : List String) (dryRun : Bool)
    (needed : List (String × String × String)) : Nat × List MCall :=
  needed.foldl (defsCombine ownerType existing dryRun) (0, [])

/-- The `metafieldsSet` inputs prepared for one owner. -/
def metafieldInputs (ownerId : String) (mfs : List SnapMetafield) : List MfSetInput :=
  mfs.map fun mf => ⟨ownerId, mf.ns, mf.key, mf.value, mf.type.getD "single_line_text_field"⟩

/-- One iteration of the value-application loop (steps 3 and 4) for a single
record, returning the increments to `total_metafields_set` and `total_skipped`
and the mutation calls issued.  A falsy handle or a falsy by-handle lookup
result skips the record; an empty prepared list issues nothing; in live mode
the batch mutation is issued and counted only when the oracle reports no user
errors, in dry-run mode it is counted but never issued. -/
def setPhaseStep (lookup : String → Option String) (setOk : String → Bool) (dryRun : Bool)
    (r : SnapRecord) : Nat × Nat × List MCall :=
  match r.handle with
  | none => (0, 1, [])
  | some h =>
    if h = "" then (0, 1, [])
    else
      match lookup h with
      | none => (0, 1, [])
      | some gid =>
        if gid = "" then (0, 1, [])
        else
          let inputs := metafieldInputs gid r.metafields
          if inputs.isEmpty then (0, 0, [])
          else if !dryRun then
            if setOk gid then (inputs.length, 0, [.mfSet gid inputs])
            else (0, 0, [.mfSet gid inputs])
          else (inputs.length, 0, [])

/-- Accumulation of one record's increments onto the running
`(metafields_set, skipped, trace)` state. -/
def setPhaseCombine (lookup : String → Option String) (setOk : String → Bool) (dryRun : Bool)
    (acc : Nat × Nat × List MCall) (r : SnapRecord) : Nat × Nat × List MCall :=
  let s := setPhaseStep lookup setOk dryRun r
  (acc.1 + s.1, acc.2.1 + s.2.1, acc.2.2 ++ s.2.2)

/-- The value-application loop over all records of one resource kind. -/
def setPhase (lookup : String → Option String) (setOk : String → Bool) (dryRun : Bool)
    (recs : List SnapRecord) : Nat × Nat × List MCall :=
  recs.foldl (setPhaseCombine lookup setOk dryRun) (0, 0, [])

/-- The target-store oracles of one import run: existing definition
identifiers (`ns|key`) per owner type, the by-handle lookups, and whether a
`metafieldsSet` batch for a given owner id comes back without user errors.
Every query is answered (the claims about the reconciler assume transport
success). -/
structure ImportEnv where
  existingProductDefs : List String
  existingCollectionDefs : List String
  productByHandle : String → Option String
  collectionByHandle : String → Option String
  mfSetOk : String → Bool

/-- The reported counters of `import_metafields` plus the mutation calls
issued, in order. -/
structure ImportResult where
  definitionsCreated : Nat
  metafieldsSet : Nat
  skipped : Nat
  trace : List MCall
deriving DecidableEq

/-- Embeds `import_metafields`: definition discovery and reconciliation for
products then collections, then value application for products then
collections, accumulating the three reported counters. -/
def import_metafields (env : ImportEnv) (snap : Snapshot) (dryRun : Bool) : ImportResult :=
  let pDefs := defsPhase "PRODUCT" env.existingProductDefs dryRun (definitionsNeeded snap.products)
  let cDefs := defsPhase "COLLECTION" env.existingCollectionDefs dryRun
    (definitionsNeeded snap.collections)
  let pSet := setPhase env.productByHandle env.mfSetOk dryRun snap.products
  let cSet := setPhase env.collectionByHandle env.mfSetOk dryRun snap.collections
  { definitionsCreated := pDefs.1 + cDefs.1
    metafieldsSet := pSet.1 + cSet.1
    skipped := pSet.2.1 + cSet.2.1
    trace := pDefs.2 ++ cDefs.2 ++ pSet.2.2 ++ cSet.2.2 }

/-- The record-skipping condition of the value-application phase: a missing or
empty handle, or a by-handle lookup with a falsy result. -/
def skipsRecord (lookup : String → Option String) (r : SnapRecord) : Bool :=
  match r.handle with
  | none => true
  | some h =>
    if h = "" then true
    else match lookup h with
      | none => true
      | some gid => gid = ""

/-- A concrete successful page whose page-info promises a next page. -/
def pageA : Page :=
  ⟨⟨true, some "cursorA"⟩,
   [⟨"gid://shopify/Product/1", some "alpha", some "Alpha",
     [⟨"custom", "cor", some "single_line_text_field", some "#FFC0CB"⟩]⟩]⟩

/-- A concrete successful final page (no next page). -/
def pageB : Page :=
  ⟨⟨false, none⟩,
   [⟨"gid://shopify/Product/2", some "beta", some "Beta", []⟩,
    ⟨"gid://shopify/Collection/3", some "gamma", some "Gamma", []⟩]⟩

/-- A concrete import environment in which every query is answered and every
mutation succeeds. -/
def env0 : ImportEnv :=
  { existingProductDefs := ["custom|cor"]
    existingCollectionDefs := []
    productByHandle := fun h => if h = "alpha" then some "gid://shopify/Product/9" else none
    collectionByHandle := fun _ => none
    mfSetOk := fun _ => true }

/-- A concrete snapshot: one product that matches by handle, one product with
an empty handle, one collection whose handle is unmatched. -/
def snap0 : Snapshot :=
  { products :=
      [⟨some "gid://shopify/Product/1", some "alpha",
        [⟨"custom", "cor", some "single_line_text_field", some "#FFC0CB"⟩,
         ⟨"custom", "size", none, some "40"⟩]⟩,
       ⟨some "gid://shopify/Product/2", some "",
        [⟨"custom", "cor", some "single_line_text_field", some "#FF0000"⟩]⟩]
    collections :=
      [⟨some "gid://shopify/Collection/3", some "gamma",
        [⟨"shopify", "material", some "single_line_text_field", some "wool"⟩]⟩] }

end Transfer

namespace PinkTagger

/-- The body of `is_pink` after `lstrip('#')`: exactly six characters must
remain; the three two-character slices are parsed with `int(_, 16)`; a
`ValueError` yields false; otherwise the classification rule
`r >= 200 and g <= 200 and b >= 120 and (r - g) > 30` is applied. -/
def pinkCore : List Char → Bool
  | [c0, c1, c2, c3, c4, c5] =>
      match Py.pyIntHex2 c0 c1, Py.pyIntHex2 c2 c3, Py.pyIntHex2 c4 c5 with
      | some r, some g, some b =>
          decide (200 ≤ r) && decide (g ≤ 200) && decide (120 ≤ b) && decide (30 < r - g)
      | _, _, _ => false
  | _ => false

/-- Embeds `is_pink` from `pink_product_tagger.py`: a falsy (empty) string is
false; all leading `#` are stripped (`lstrip('#')`); then `pinkCore`. -/
def is_pink (hex_color : String) : Bool :=
  if hex_color = "" then false
  else pinkCore (hex_color.data.dropWhile (· = '#'))

/-- The claim's classification predicate, from the spec's words: after
stripping leading `#`, the string consists of exactly six hexadecimal digits
forming bytes R G B with R ≥ 200, G ≤ 200, B ≥ 120 and R − G > 30. -/
def claimPink (s : String) : Bool :=
  match s.data.dropWhile (· = '#') with
  | [c0, c1, c2, c3, c4, c5] =>
    match Py.hexVal? c0, Py.hexVal? c1, Py.hexVal? c2, Py.hexVal? c3,
        Py.hexVal? c4, Py.hexVal? c5 with
    | some h0, some h1, some h2, some h3, some h4, some h5 =>
        let r : Int := 16 * (h0 : Int) + (h1 : Int)
        let g : Int := 16 * (h2 : Int) + (h3 : Int)
        let b : Int := 16 * (h4 : Int) + (h5 : Int)
        decide (200 ≤ r) && decide (g ≤ 200) && decide (120 ≤ b) && decide (30 < r - g)
    | _, _, _, _, _, _ => false
  | _ => false

/-- One metafield node of the tagging query (namespace-scoped to `custom`
server-side; `value` fetched with `.get("value", "")`). -/
structure TagMetafield where
  id : String
  ns : String
  key : String
  type : Option String
  value : Option String
deriving DecidableEq

/-- One product node of a tagging-query page (`handle`, `title` default to
`""`, `tags` to `[]` when absent). -/
structure TagNode where
  id : String
  handle : String
  title : String
  tags : List String
  metafields : List TagMetafield
deriving DecidableEq

/-- A truthy `products` block of one tagging-query response. -/
structure TagPage where
  pageInfo : Transfer.PageInfo
  nodes : List TagNode
deriving DecidableEq

/-- One record accumulated by `get_products_with_metafields`. -/
structure TagRecord where
  id : String
  handle : String
  title : String
  tags : String
  custom_cor : String
deriving DecidableEq

/-- The `custom.cor` extraction loop of `get_products_with_metafields`: scan in
list order and `break` at the first node whose key is `"cor"`. -/
def extractCor : List TagMetafield → String
  | [] => ""
  | mf :: rest => if mf.key = "cor" then mf.value.getD "" else extractCor rest

/-- The per-node record construction of `get_products_with_metafields`:
tags are serialised with `", ".join`, `custom_cor` by `extractCor`. -/
def mapTagNode (node : TagNode) : TagRecord :=
  { id := node.id
    handle := node.handle
    title := node.title
    tags := Py.pyJoin ", " node.tags
    custom_cor := extractCor node.metafields }

/-- The pagination loop of `get_products_with_metafields`, with the same
response-list convention as `Transfer.exportLoop` (a `failure` response makes
the source call `body.get` on `None`, raising `AttributeError`). -/
def tagLoop : List (Py.TResp TagPage) → List TagRecord → Except String (List TagRecord)
  | [], _ => .error "transport exhausted"
  | .failure :: _, _ => .error "AttributeError"
  | .ok none :: _, acc => .ok acc
  | .ok (some page) :: rest, acc =>
      if page.pageInfo.hasNextPage then tagLoop rest (acc ++ page.nodes.map mapTagNode)
      else .ok (acc ++ page.nodes.map mapTagNode)

/-- Embeds `get_products_with_metafields`. -/
def get_products_with_metafields (resps : List (Py.TResp TagPage)) :
    Except String (List TagRecord) :=
  tagLoop resps []

/-- The `updated_tags` computed per product inside `save_products_to_csv`:
append `", rosa"` (or set `"rosa"` alone) only when the product is pink and
`"rosa"` is not already a case-insensitive substring of the serialised tags. -/
def updatedTags (p : TagRecord) : String :=
  if is_pink p.custom_cor && !(Py.strContains (Py.pyLower p.tags) "rosa") then
    if p.tags ≠ "" then p.tags ++ ", rosa" else "rosa"
  else p.tags

/-- One CSV row written by `save_products_to_csv`. -/
structure CsvRow where
  handle : String
  title : String
  tags : String
  custom_cor : String
  is_pink : Bool
  updated_tags : String
deriving DecidableEq

/-- Embeds `save_products_to_csv` (the rows written, in order). -/
def save_products_to_csv (products : List TagRecord) : List CsvRow :=
  products.map fun p =>
    { handle := p.handle
      title := p.title
      tags := p.tags
      custom_cor := p.custom_cor
      is_pink := is_pink p.custom_cor
      updated_tags := updatedTags p }

/-- The tag array sent by the `productUpdate` mutation: split on `','`, strip
each piece, drop empty pieces. -/
def tagsArray (s : String) : List String :=
  ((Py.splitCommaList s.data).map fun cs => (⟨Py.stripChars cs⟩ : String)).filter
    fun t => t ≠ ""

/-- The per-record body of `update_product_tags`: `none` when no mutation is
issued for the record (not pink, or `"rosa"` already present), otherwise the
`productUpdate` input `(id, tags array)`. -/
def tagMutation? (p : TagRecord) : Option (String × List String) :=
  if is_pink p.custom_cor then
    if Py.strContains (Py.pyLower p.tags) "rosa" then none
    else some (p.id, tagsArray (if p.tags ≠ "" then p.tags ++ ", rosa" else "rosa"))
  else none

/-- Embeds `update_product_tags` in live mode: the `productUpdate` mutations
issued, in order (the source first filters pink products, then skips records
whose serialised tags already contain `"rosa"`; `filterMap tagMutation?`
performs both checks in that order). -/
def update_product_tags (products : List TagRecord) : List (String × List String) :=
  products.filterMap tagMutation?

/-- One product of the remote store as the tagging pipeline observes it. -/
structure StoreProduct where
  id : String
  handle : String
  title : String
  tags : List String
  metafields : List TagMetafield
deriving DecidableEq

/-- Fetching one store product yields this record (the pagination mapping of
`get_products_with_metafields` applied to its node). -/
def fetchRecord (sp : StoreProduct) : TagRecord :=
  { id := sp.id
    handle := sp.handle
    title := sp.title
    tags := Py.pyJoin ", " sp.tags
    custom_cor := extractCor sp.metafields }

/-- Modelled remote effect of the live update phase succeeding: each store
product whose id carries a mutation gets its tags replaced by the mutation's
tag array. -/
def applyMutations (store : List StoreProduct) (muts : List (String × List String)) :
    List StoreProduct :=
  store.map fun sp =>
    match muts.find? fun m => m.1 = sp.id with
    | some m => { sp with tags := m.2 }
    | none => sp

/-- The store as left by one completed live run of the tagging pipeline. -/
def storeAfterRun (store : List StoreProduct) : List StoreProduct :=
  applyMutations store (update_product_tags (store.map fetchRecord))

/-- Well-formed tag: non-empty, strip-invariant, comma-free.  Shopify tags
have this shape; the idempotence of the pipeline needs it because the update
mutation re-derives the tag array by splitting the serialised string on
commas. -/
def wfTag (t : String) : Prop :=
  t ≠ "" ∧ Py.pyStrip t = t ∧ ',' ∉ t.data

instance (t : String) : Decidable (wfTag t) := by
  unfold wfTag; infer_instance

/-- The value the claim expects the extraction to retain: the last entry in
list order whose key is `"cor"` (most-recently-seen wins). -/
def lastWinsCor (mfs : List TagMetafield) : String :=
  ((mfs.reverse.find? fun mf => mf.key = "cor").map fun mf => mf.value.getD "").getD ""

/-- A concrete successful tagging-query page whose page-info promises a next
page. -/
def tagPageA : TagPage :=
  ⟨⟨true, some "cursorA"⟩,
   [⟨"gid://shopify/Product/1", "alpha", "Alpha", ["blue"],
     [⟨"gid://shopify/Metafield/1", "custom", "cor", some "single_line_text_field",
       some "#FFC0CB"⟩]⟩]⟩

/-- A concrete successful final tagging-query page (no next page). -/
def tagPageB : TagPage :=
  ⟨⟨false, none⟩,
   [⟨"gid://shopify/Product/2", "beta", "Beta", [], []⟩]⟩

/-- A product node carrying two metafield entries with the same
`(custom, cor)` pair and different values. -/
def dupCorNode : TagNode :=
  ⟨"gid://shopify/Product/7", "dup", "Dup", [],
   [⟨"gid://shopify/Metafield/1", "custom", "cor", some "single_line_text_field",
     some "#AAAAAA"⟩,
    ⟨"gid://shopify/Metafield/2", "custom", "cor", some "single_line_text_field",
      some "#BBBBBB"⟩]⟩

/-- A one-product store whose single tag contains a comma: the live update
re-serialises the tag list differently, breaking run-to-run equality of
`updated_tags`. -/
def commaStore : List StoreProduct :=
  [⟨"gid://shopify/Product/1", "alpha", "Alpha", ["x,y"],
    [⟨"gid://shopify/Metafield/1", "custom", "cor", some "single_line_text_field",
      some "#FF69B4"⟩]⟩]

/-- A store whose tags are well formed (non-empty, strip-invariant,
comma-free). -/
def wfStore : List StoreProduct :=
  [⟨"gid://shopify/Product/1", "alpha", "Alpha", ["blue", "cotton"],
    [⟨"gid://shopify/Metafield/1", "custom", "cor", some "single_line_text_field",
      some "#FF69B4"⟩]⟩,
   ⟨"gid://shopify/Product/2", "beta", "Beta", ["red"],
    [⟨"gid://shopify/Metafield/2", "custom", "cor", some "single_line_text_field",
      some "#FF0000"⟩]⟩]

end PinkTagger

namespace MetaCsv

/-- One metafield of the JSON consumed by `metafields_to_csv.py`
(namespace/key default to `""` when absent, matching `.get(..., '')` and the
falsy test on a missing namespace; `value = none` models JSON null, rendered
as an empty cell by the csv writer). -/
structure CsvMetafield where
  ns : String
  key : String
  value : Option String
deriving DecidableEq

/-- One product of the JSON consumed by `metafields_to_csv.py`. -/
structure CsvProduct where
  handle : String
  title : String
  metafields : List CsvMetafield
deriving DecidableEq

/-- Python dict assignment `d[k] = v` on an insertion-ordered association
list: replace in place when the key exists, append otherwise. -/
def assocUpdate (l : List (String × Option String)) (k : String) (v : Option String) :
    List (String × Option String) :=
  if l.any fun p => p.1 = k then l.map fun p => if p.1 = k then (k, v) else p
  else l ++ [(k, v)]

/-- Python dict lookup `d.get(k)` on the association list. -/
def assocFind (l : List (String × Option String)) (k : String) : Option (Option String) :=
  (l.find? fun p => p.1 = k).map (·.2)

/-- Embeds `extract_custom_metafields`: the dict of
`product.metafields.custom.{key} ↦ value` built over the product's
`custom`-namespace metafields in list order. -/
def extract_custom_metafields (p : CsvProduct) : List (String × Option String) :=
  p.metafields.foldl
    (fun acc mf =>
      if mf.ns = "custom" then
        assocUpdate acc ("product.metafields.custom." ++ mf.key) mf.value
      else acc)
    []

/-- Embeds `get_all_custom_keys`: the sorted list of distinct column names for
all non-empty `custom`-namespace keys across all products. -/
def get_all_custom_keys (products : List CsvProduct) : List String :=
  Py.sortStrings
    ((products.flatMap fun p =>
      p.metafields.filterMap fun mf =>
        if mf.ns = "custom" then
          if mf.key ≠ "" then some ("product.metafields.custom." ++ mf.key) else none
        else none).dedup)

/-- The `row_data` dict of `export_to_csv`: handle and title, then updated
with the product's custom-metafield dict. -/
def rowData (p : CsvProduct) : List (String × Option String) :=
  (extract_custom_metafields p).foldl
    (fun acc kv => assocUpdate acc kv.1 kv.2)
    [("handle", some p.handle), ("title", some p.title)]

/-- `csv.DictWriter.writerow`: raises `ValueError` when the row dict holds a
field absent from the fieldnames (the writer's default `extrasaction`),
otherwise renders one cell per fieldname, with missing fields filled by the
default `restval` `''` and `None` rendered as `''`. -/
def writeRow (fieldnames : List String) (row : List (String × Option String)) :
    Except String (List String) :=
  if row.any fun kv => !(fieldnames.contains kv.1) then .error "ValueError"
  else .ok (fieldnames.map fun f =>
    match assocFind row f with
    | some v => v.getD ""
    | none => "")

/-- The row-writing loop of `export_to_csv`, stopping at the first raised
`ValueError`. -/
def writeRows (fieldnames : List String) : List CsvProduct → Except String (List (List String))
  | [] => .ok []
  | p :: ps =>
      match writeRow fieldnames (rowData p) with
      | .error e => .error e
      | .ok row =>
          match writeRows fieldnames ps with
          | .error e => .error e
          | .ok rows => .ok (row :: rows)

/-- Embeds `export_to_csv`: on an empty product list the source logs and
returns without writing (modelled as an empty document); otherwise the header
is `handle, title` plus `get_all_custom_keys` and the rows are written in
product order. -/
def export_to_csv (products : List CsvProduct) : Except String (List String × List (List String)) :=
  if products.isEmpty then .ok ([], [])
  else
    let headers := ["handle", "title"] ++ get_all_custom_keys products
    match writeRows headers products with
    | .error e => .error e
    | .ok rows => .ok (headers, rows)

/-- Modelled from the claim's words: one column per distinct observed
`namespace.key` combination across all products' metafields, sorted. -/
def claimHeaderColumns (products : List CsvProduct) : List String :=
  Py.sortStrings
    ((products.flatMap fun p => p.metafields.map fun mf => mf.ns ++ "." ++ mf.key).dedup)

/-- The product has a `custom`-namespace metafield with an empty (or missing)
key. -/
def hasEmptyCustomKey (p : CsvProduct) : Bool :=
  p.metafields.any fun mf => mf.ns = "custom" && mf.key = ""

/-- The value a written cell must carry for column `c` of product `p`: the
value of the last `custom` metafield of `p` whose column name is `c` (rendered
with null as `''`), or `''` when `p` has none. -/
def cellSpec (p : CsvProduct) (c : String) : String :=
  match (p.metafields.filter fun mf =>
      mf.ns = "custom" && ("product.metafields.custom." ++ mf.key) = c).getLast? with
  | none => ""
  | some mf => mf.value.getD ""

/-- A product whose only metafield lives in a non-`custom` namespace. -/
def globalNsProduct : CsvProduct :=
  ⟨"alpha", "Alpha", [⟨"global", "origin", some "workshop"⟩]⟩

/-- A product carrying a `custom`-namespace metafield with an empty key. -/
def emptyKeyProduct : CsvProduct :=
  ⟨"beta", "Beta", [⟨"custom", "", some "oops"⟩]⟩

/-- Products with only non-empty `custom` keys (one duplicated pair, one null
value). -/
def goodProducts : List CsvProduct :=
  [⟨"alpha", "Alpha",
    [⟨"custom", "cor", some "#FFC0CB"⟩, ⟨"custom", "size", none⟩,
     ⟨"custom", "cor", some "#FF69B4"⟩]⟩,
   ⟨"beta", "Beta", [⟨"global", "origin", some "workshop"⟩]⟩]

end MetaCsv

/-! ## Helper lemmas and claim theorems -/

theorem PinkTagger.is_pink_eq_core (s : String) :
    is_pink s = pinkCore (s.data.dropWhile (· = '#')) := by
  by_cases h : s = ""
  · subst h; rfl
  · simp [is_pink, h]

theorem PinkTagger.pinkCore_eq_true_iff (l : List Char) :
    pinkCore l = true ↔
      ∃ c0 c1 c2 c3 c4 c5 r g b,
        l = [c0, c1, c2, c3, c4, c5] ∧
        Py.pyIntHex2 c0 c1 = some r ∧ Py.pyIntHex2 c2 c3 = some g ∧
        Py.pyIntHex2 c4 c5 = some b ∧
        200 ≤ r ∧ g ≤ 200 ∧ 120 ≤ b ∧ 30 < r - g := by
  rcases l with _ | ⟨c0, _ | ⟨c1, _ | ⟨c2, _ | ⟨c3, _ | ⟨c4, _ | ⟨c5, _ | ⟨c6, l⟩⟩⟩⟩⟩⟩⟩
  · simp [pinkCore]
  · simp [pinkCore]
  · simp [pinkCore]
  · simp [pinkCore]
  · simp [pinkCore]
  · simp [pinkCore]
  · constructor
    · intro h
      rcases hr : Py.pyIntHex2 c0 c1 with _ | r <;>
        rcases hg : Py.pyIntHex2 c2 c3 with _ | g <;>
        rcases hb : Py.pyIntHex2 c4 c5 with _ | b <;>
        simp [pinkCore, hr, hg, hb] at h
      exact ⟨c0, c1, c2, c3, c4, c5, r, g, b, rfl, hr, hg, hb,
        h.1.1.1, h.1.1.2, h.1.2, h.2⟩
    · rintro ⟨d0, d1, d2, d3, d4, d5, r, g, b, hl, hr, hg, hb, h1, h2, h3, h4⟩
      simp only [List.cons.injEq, and_true] at hl
      obtain ⟨rfl, rfl, rfl, rfl, rfl, rfl⟩ := hl
      simp [pinkCore, hr, hg, hb, h1, h2, h3, h4]
  · simp [pinkCore]

theorem PinkTagger.claimPink_imp (s : String) :
    claimPink s = true → is_pink s = true := by
  intro h
  rw [is_pink_eq_core]
  unfold claimPink at h
  rcases hl : s.data.dropWhile (· = '#') with
    _ | ⟨c0, _ | ⟨c1, _ | ⟨c2, _ | ⟨c3, _ | ⟨c4, _ | ⟨c5, _ | ⟨c6, l⟩⟩⟩⟩⟩⟩⟩ <;>
    rw [hl] at h <;> simp only at h
  all_goals try exact absurd h (by decide)
  rcases hv0 : Py.hexVal? c0 with _ | v0 <;> rw [hv0] at h <;>
    rcases hv1 : Py.hexVal? c1 with _ | v1 <;> rw [hv1] at h <;>
    rcases hv2 : Py.hexVal? c2 with _ | v2 <;> rw [hv2] at h <;>
    rcases hv3 : Py.hexVal? c3 with _ | v3 <;> rw [hv3] at h <;>
    rcases hv4 : Py.hexVal? c4 with _ | v4 <;> rw [hv4] at h <;>
    rcases hv5 : Py.hexVal? c5 with _ | v5 <;> rw [hv5] at h <;>
    simp only [Bool.false_eq_true] at h
  simp only [Bool.and_eq_true, decide_eq_true_eq] at h
  have e01 : Py.pyIntHex2 c0 c1 = some (16 * (v0 : Int) + (v1 : Int)) := by
    simp [Py.pyIntHex2, hv0, hv1]
  have e23 : Py.pyIntHex2 c2 c3 = some (16 * (v2 : Int) + (v3 : Int)) := by
    simp [Py.pyIntHex2, hv2, hv3]
  have e45 : Py.pyIntHex2 c4 c5 = some (16 * (v4 : Int) + (v5 : Int)) := by
    simp [Py.pyIntHex2, hv4, hv5]
  simp [pinkCore, e01, e23, e45, h.1.1.1, h.1.1.2, h.1.2, h.2]

/-- C1 (amended): the classifier agrees with the claim's rule except that the
two-character slices are parsed with Python's `int(_, 16)`, which also accepts
a slice written with a leading sign or padding whitespace; over ASCII strings
`is_pink` returns true exactly when the `#`-stripped input is six characters
whose three slices parse to R, G, B with R ≥ 200, G ≤ 200, B ≥ 120 and
R − G > 30.  Every string of six hexadecimal digits satisfying the claim's
rule is still classified pink, `"#FFC0CB"` is pink and `"#FF0000"` is not, and
`is_pink` is a total Boolean function (malformed input yields `false`, never
an exception). -/
theorem pink_classifier_spec (s : String) (hascii : ∀ c ∈ s.data, c.toNat < 128) :
    (PinkTagger.is_pink s = true ↔
      ∃ c0 c1 c2 c3 c4 c5 r g b,
        s.data.dropWhile (· = '#') = [c0, c1, c2, c3, c4, c5] ∧
        Py.pyIntHex2 c0 c1 = some r ∧ Py.pyIntHex2 c2 c3 = some g ∧
        Py.pyIntHex2 c4 c5 = some b ∧
        200 ≤ r ∧ g ≤ 200 ∧ 120 ≤ b ∧ 30 < r - g) ∧
    (PinkTagger.claimPink s = true → PinkTagger.is_pink s = true) ∧
    PinkTagger.is_pink "#FFC0CB" = true ∧ PinkTagger.is_pink "#FF0000" = false := by
  refine ⟨?_, PinkTagger.claimPink_imp s, by decide, by decide⟩
  rw [PinkTagger.is_pink_eq_core]
  exact PinkTagger.pinkCore_eq_true_iff _

/-- C1 counterexample: `"FF+5CB"` contains a character that is not a
hexadecimal digit, so the claim classifies it false, yet `is_pink` returns
true because Python's `int("+5", 16)` parses the middle slice to 5. -/
theorem pink_classifier_counterexample :
    PinkTagger.is_pink "FF+5CB" = true ∧ PinkTagger.claimPink "FF+5CB" = false := by
  decide

/-- Witness for `pink_classifier_spec` at the concrete input `"#FFC0CB"`. -/
theorem pink_classifier_spec_witness : PinkTagger.is_pink "#FFC0CB" = true :=
  (pink_classifier_spec "#FFC0CB" (by decide)).2.2.1

/-- C2 (code bug): when the transport client signals FAILURE (returns `None`)
on the second call, every collector evaluates `body.get("data", {})` on `None`
and raises `AttributeError` instead of returning the records accumulated from
the first page. -/
theorem collector_failure_raises :
    Transfer.export_products_metafields [.ok (some Transfer.pageA), .failure] =
      .error "AttributeError" ∧
    Transfer.export_collections_metafields [.ok (some Transfer.pageA), .failure] =
      .error "AttributeError" ∧
    PinkTagger.get_products_with_metafields [.ok (some PinkTagger.tagPageA), .failure] =
      .error "AttributeError" ∧
    ∀ recs, Transfer.export_products_metafields [.ok (some Transfer.pageA), .failure] ≠
      Except.ok recs := by
  refine ⟨rfl, rfl, rfl, fun recs h => ?_⟩
  rw [show Transfer.export_products_metafields [.ok (some Transfer.pageA), .failure] =
      Except.error "AttributeError" from rfl] at h
  exact Except.noConfusion h

theorem Transfer.exportLoop_ok (good : List Page) (fin : Page)
    (rest : List (Py.TResp Page)) (acc : List OwnerNode)
    (hgood : ∀ p ∈ good, p.pageInfo.hasNextPage = true)
    (hfin : fin.pageInfo.hasNextPage = false) :
    exportLoop ((good ++ [fin]).map (fun p => Py.TResp.ok (some p)) ++ rest) acc =
      .ok (acc ++ (good ++ [fin]).flatMap (·.nodes)) := by
  induction good generalizing acc with
  | nil => simp [exportLoop, hfin]
  | cons p ps ih =>
      have hp : p.pageInfo.hasNextPage = true := hgood p (List.mem_cons_self _ _)
      have step :
          exportLoop ((List.map (fun p => Py.TResp.ok (some p)) ((p :: ps) ++ [fin])) ++ rest)
              acc =
            exportLoop ((List.map (fun p => Py.TResp.ok (some p)) (ps ++ [fin])) ++ rest)
              (acc ++ p.nodes) := by
        simp [exportLoop, hp]
      rw [step, ih _ fun q hq => hgood q (List.mem_cons_of_mem _ hq)]
      simp [List.append_assoc]

theorem PinkTagger.tagLoop_ok (good : List TagPage) (fin : TagPage)
    (rest : List (Py.TResp TagPage)) (acc : List TagRecord)
    (hgood : ∀ p ∈ good, p.pageInfo.hasNextPage = true)
    (hfin : fin.pageInfo.hasNextPage = false) :
    tagLoop ((good ++ [fin]).map (fun p => Py.TResp.ok (some p)) ++ rest) acc =
      .ok (acc ++ (good ++ [fin]).flatMap fun pg => pg.nodes.map mapTagNode) := by
  induction good generalizing acc with
  | nil => simp [tagLoop, hfin]
  | cons p ps ih =>
      have hp : p.pageInfo.hasNextPage = true := hgood p (List.mem_cons_self _ _)
      have step :
          tagLoop ((List.map (fun p => Py.TResp.ok (some p)) ((p :: ps) ++ [fin])) ++ rest)
              acc =
            tagLoop ((List.map (fun p => Py.TResp.ok (some p)) (ps ++ [fin])) ++ rest)
              (acc ++ p.nodes.map mapTagNode) := by
        simp [tagLoop, hp]
      rw [step, ih _ fun q hq => hgood q (List.mem_cons_of_mem _ hq)]
      simp [List.append_assoc]

/-- C3: fed a finite response sequence of successful pages whose page-info
eventually reports no next page, each paginated collector terminates at the
first no-next-page page and returns exactly the concatenation of the pages'
record lists in page order, with within-page order preserved (later responses
are never consumed). -/
theorem collector_pagination
    (good : List Transfer.Page) (fin : Transfer.Page) (rest : List (Py.TResp Transfer.Page))
    (tgood : List PinkTagger.TagPage) (tfin : PinkTagger.TagPage)
    (trest : List (Py.TResp PinkTagger.TagPage))
    (hgood : ∀ p ∈ good, p.pageInfo.hasNextPage = true)
    (hfin : fin.pageInfo.hasNextPage = false)
    (htgood : ∀ p ∈ tgood, p.pageInfo.hasNextPage = true)
    (htfin : tfin.pageInfo.hasNextPage = false) :
    Transfer.export_products_metafields
        ((good ++ [fin]).map (fun p => Py.TResp.ok (some p)) ++ rest) =
      .ok ((good ++ [fin]).flatMap (·.nodes)) ∧
    Transfer.export_collections_metafields
        ((good ++ [fin]).map (fun p => Py.TResp.ok (some p)) ++ rest) =
      .ok ((good ++ [fin]).flatMap (·.nodes)) ∧
    PinkTagger.get_products_with_metafields
        ((tgood ++ [tfin]).map (fun p => Py.TResp.ok (some p)) ++ trest) =
      .ok ((tgood ++ [tfin]).flatMap fun pg => pg.nodes.map PinkTagger.mapTagNode) := by
  refine ⟨?_, ?_, ?_⟩
  · rw [Transfer.export_products_metafields, Transfer.exportLoop_ok good fin rest [] hgood hfin]
    simp
  · rw [Transfer.export_collections_metafields, Transfer.exportLoop_ok good fin rest [] hgood hfin]
    simp
  · rw [PinkTagger.get_products_with_metafields,
      PinkTagger.tagLoop_ok tgood tfin trest [] htgood htfin]
    simp

/-- Witness for `collector_pagination`: two pages for each collector. -/
theorem collector_pagination_witness :
    Transfer.export_products_metafields
        (([Transfer.pageA] ++ [Transfer.pageB]).map (fun p => Py.TResp.ok (some p)) ++ []) =
      .ok (([Transfer.pageA] ++ [Transfer.pageB]).flatMap (·.nodes)) ∧
    Transfer.export_collections_metafields
        (([Transfer.pageA] ++ [Transfer.pageB]).map (fun p => Py.TResp.ok (some p)) ++ []) =
      .ok (([Transfer.pageA] ++ [Transfer.pageB]).flatMap (·.nodes)) ∧
    PinkTagger.get_products_with_metafields
        (([PinkTagger.tagPageA] ++ [PinkTagger.tagPageB]).map (fun p => Py.TResp.ok (some p)) ++ []) =
      .ok (([PinkTagger.tagPageA] ++ [PinkTagger.tagPageB]).flatMap
        fun pg => pg.nodes.map PinkTagger.mapTagNode) :=
  collector_pagination [Transfer.pageA] Transfer.pageB [] [PinkTagger.tagPageA]
    PinkTagger.tagPageB [] (by decide) (by decide) (by decide) (by decide)

theorem PinkTagger.extractCor_eq_find? (mfs : List TagMetafield) :
    extractCor mfs =
      ((mfs.find? fun mf => mf.key = "cor").map fun mf => mf.value.getD "").getD "" := by
  induction mfs with
  | nil => rfl
  | cons mf rest ih =>
      by_cases h : mf.key = "cor"
      · simp [extractCor, List.find?_cons, h]
      · simp [extractCor, List.find?_cons, h, ih]

/-- C7 (amended): within a single fetched record, the tagging pipeline's
extraction of the `custom.cor` value scans the metafield list in order and
stops at the FIRST entry whose key is `"cor"` (first wins, not last): the
retained value is the value of the first matching entry, `""` when there is
none. -/
theorem cor_extraction_first_wins :
    (∀ mfs : List PinkTagger.TagMetafield,
      PinkTagger.extractCor mfs =
        ((mfs.find? fun mf => mf.key = "cor").map fun mf => mf.value.getD "").getD "") ∧
    ∀ node : PinkTagger.TagNode,
      (PinkTagger.mapTagNode node).custom_cor =
        ((node.metafields.find? fun mf => mf.key = "cor").map
          fun mf => mf.value.getD "").getD "" :=
  ⟨PinkTagger.extractCor_eq_find?, fun node => PinkTagger.extractCor_eq_find? node.metafields⟩

/-- C7 counterexample: a record with two `(custom, cor)` entries retains the
FIRST value `"#AAAAAA"`, not the most-recently-seen (last) value `"#BBBBBB"`
the claim requires. -/
theorem cor_extraction_counterexample :
    (PinkTagger.mapTagNode PinkTagger.dupCorNode).custom_cor = "#AAAAAA" ∧
    PinkTagger.lastWinsCor PinkTagger.dupCorNode.metafields = "#BBBBBB" ∧
    (PinkTagger.mapTagNode PinkTagger.dupCorNode).custom_cor ≠
      PinkTagger.lastWinsCor PinkTagger.dupCorNode.metafields := by
  decide

theorem Transfer.setPhaseStep_skip (lookup : String → Option String) (setOk : String → Bool)
    (dryRun : Bool) (r : SnapRecord) :
    (setPhaseStep lookup setOk dryRun r).2.1 = if skipsRecord lookup r then 1 else 0 := by
  unfold setPhaseStep skipsRecord
  rcases hr : r.handle with _ | h
  · simp
  · by_cases hh : h = ""
    · simp [hh]
    · rcases hl : lookup h with _ | gid
      · simp [hh, hl]
      · by_cases hg : gid = ""
        · simp [hh, hl, hg]
        · by_cases he : (metafieldInputs gid r.metafields).isEmpty
          · simp [hh, hl, hg, he]
          · cases dryRun
            · by_cases hs : setOk gid <;> simp [hh, hl, hg, he, hs]
            · simp [hh, hl, hg, he]

theorem Transfer.setPhaseCombine_eq (lookup : String → Option String) (setOk : String → Bool)
    (dryRun : Bool) (a b : Nat) (tr : List MCall) (r : SnapRecord) :
    setPhaseCombine lookup setOk dryRun (a, b, tr) r =
      (a + (setPhaseStep lookup setOk dryRun r).1,
       b + (setPhaseStep lookup setOk dryRun r).2.1,
       tr ++ (setPhaseStep lookup setOk dryRun r).2.2) := rfl

theorem Transfer.setPhase_fold (lookup : String → Option String) (setOk : String → Bool)
    (dryRun : Bool) (recs : List SnapRecord) (a b : Nat) (tr : List MCall) :
    recs.foldl (setPhaseCombine lookup setOk dryRun) (a, b, tr) =
    (a + (recs.map fun r => (setPhaseStep lookup setOk dryRun r).1).sum,
     b + recs.countP (skipsRecord lookup),
     tr ++ recs.flatMap fun r => (setPhaseStep lookup setOk dryRun r).2.2) := by
  induction recs generalizing a b tr with
  | nil => simp
  | cons r rs ih =>
      rw [List.foldl_cons, setPhaseCombine_eq, ih]
      simp only [List.map_cons, List.sum_cons, List.countP_cons, List.flatMap_cons,
        setPhaseStep_skip, Prod.mk.injEq]
      refine ⟨by omega, by omega, by simp [List.append_assoc]⟩

theorem Transfer.setPhase_eq (lookup : String → Option String) (setOk : String → Bool)
    (dryRun : Bool) (recs : List SnapRecord) :
    setPhase lookup setOk dryRun recs =
      ((recs.map fun r => (setPhaseStep lookup setOk dryRun r).1).sum,
       recs.countP (skipsRecord lookup),
       recs.flatMap fun r => (setPhaseStep lookup setOk dryRun r).2.2) := by
  unfold setPhase
  rw [setPhase_fold]
  simp

theorem Transfer.defsCombine_pos (ownerType : String) (existing : List String) (dryRun : Bool)
    (a : Nat) (tr : List MCall) (t : String × String × String)
    (hc : existing.contains (t.1 ++ "|" ++ t.2.1) = true) :
    defsCombine ownerType existing dryRun (a, tr) t = (a, tr) := by
  unfold defsCombine
  rw [if_pos hc]

theorem Transfer.defsCombine_neg (ownerType : String) (existing : List String) (dryRun : Bool)
    (a : Nat) (tr : List MCall) (t : String × String × String)
    (hc : ¬existing.contains (t.1 ++ "|" ++ t.2.1) = true) :
    defsCombine ownerType existing dryRun (a, tr) t =
      (a + 1,
       tr ++ (create_metafield_definition t.1 t.2.1 (defName t.1 t.2.1) ownerType t.2.2
         dryRun).2) := by
  unfold defsCombine
  rw [if_neg hc]

theorem Transfer.defsPhase_fold (ownerType : String) (existing : List String) (dryRun : Bool)
    (needed : List (String × String × String)) (a : Nat) (tr : List MCall) :
    needed.foldl (defsCombine ownerType existing dryRun) (a, tr) =
    (a + needed.countP fun t => !existing.contains (t.1 ++ "|" ++ t.2.1),
     tr ++ needed.flatMap fun t =>
       if existing.contains (t.1 ++ "|" ++ t.2.1) then []
       else (create_metafield_definition t.1 t.2.1 (defName t.1 t.2.1) ownerType t.2.2 dryRun).2) := by
  induction needed generalizing a tr with
  | nil => simp
  | cons t ts ih =>
      by_cases hc : existing.contains (t.1 ++ "|" ++ t.2.1)
      · rw [List.foldl_cons, defsCombine_pos ownerType existing dryRun a tr t hc, ih]
        simp only [List.countP_cons, List.flatMap_cons, hc, Bool.not_true, if_true,
          Prod.mk.injEq]
        exact ⟨by simp, by simp⟩
      · rw [List.foldl_cons, defsCombine_neg ownerType existing dryRun a tr t hc, ih]
        simp only [List.countP_cons, List.flatMap_cons, hc, Bool.not_false, if_false,
          Prod.mk.injEq]
        refine ⟨by simp; omega, by simp [hc, List.append_assoc]⟩

theorem Transfer.defsPhase_eq (ownerType : String) (existing : List String) (dryRun : Bool)
    (needed : List (String × String × String)) :
    defsPhase ownerType existing dryRun needed =
      (needed.countP fun t => !existing.contains (t.1 ++ "|" ++ t.2.1),
       needed.flatMap fun t =>
         if existing.contains (t.1 ++ "|" ++ t.2.1) then []
         else (create_metafield_definition t.1 t.2.1 (defName t.1 t.2.1) ownerType t.2.2 dryRun).2) := by
  unfold defsPhase
  rw [defsPhase_fold]
  simp

theorem Transfer.create_dry_trace (ns key name ownerType typeName : String) :
    (create_metafield_definition ns key name ownerType typeName true).2 = [] := by
  unfold create_metafield_definition
  split_ifs with h1 h2
  · rfl
  · simp at h2
  · rfl

theorem Transfer.setPhaseStep_dry_trace (lookup : String → Option String) (setOk : String → Bool)
    (r : SnapRecord) :
    (setPhaseStep lookup setOk true r).2.2 = [] := by
  unfold setPhaseStep
  rcases hr : r.handle with _ | h
  · simp
  · by_cases hh : h = ""
    · simp [hh]
    · rcases hl : lookup h with _ | gid
      · simp [hh, hl]
      · by_cases hg : gid = ""
        · simp [hh, hl, hg]
        · by_cases he : (metafieldInputs gid r.metafields).isEmpty <;> simp [hh, hl, hg, he]

theorem Transfer.setPhaseStep_counts_dry (lookup : String → Option String) (setOk : String → Bool)
    (r : SnapRecord) (hok : ∀ gid, setOk gid = true) :
    (setPhaseStep lookup setOk true r).1 = (setPhaseStep lookup setOk false r).1 := by
  unfold setPhaseStep
  rcases hr : r.handle with _ | h
  · simp
  · by_cases hh : h = ""
    · simp [hh]
    · rcases hl : lookup h with _ | gid
      · simp [hh, hl]
      · by_cases hg : gid = ""
        · simp [hh, hl, hg]
        · by_cases he : (metafieldInputs gid r.metafields).isEmpty <;>
            simp [hh, hl, hg, he, hok gid]

/-- C4: the skipped count reported by `import_metafields` is exactly the
number of owner records (products plus collections) whose handle is missing or
empty or whose by-handle lookup on the target store finds no owner; no such
record aborts the run (the embedding is a total function).  This holds in both
dry-run and live mode and does not depend on mutation outcomes. -/
theorem import_skip_accounting (env : Transfer.ImportEnv) (snap : Transfer.Snapshot)
    (dryRun : Bool) :
    (Transfer.import_metafields env snap dryRun).skipped =
      snap.products.countP (Transfer.skipsRecord env.productByHandle) +
      snap.collections.countP (Transfer.skipsRecord env.collectionByHandle) := by
  unfold Transfer.import_metafields
  simp [Transfer.setPhase_eq]

/-- C5: with dry-run enabled, `import_metafields` issues no mutation at all to
the transport client (its mutation trace is empty, so in particular no
definition-create and no metafields-set call), and each reported count equals
the count reported by a live run on the same snapshot against the same target
oracles when every issued `metafieldsSet` batch succeeds without user
errors. -/
theorem dry_run_equiv (env : Transfer.ImportEnv) (snap : Transfer.Snapshot)
    (hok : ∀ gid, env.mfSetOk gid = true) :
    (Transfer.import_metafields env snap true).trace = [] ∧
    (Transfer.import_metafields env snap true).definitionsCreated =
      (Transfer.import_metafields env snap false).definitionsCreated ∧
    (Transfer.import_metafields env snap true).metafieldsSet =
      (Transfer.import_metafields env snap false).metafieldsSet ∧
    (Transfer.import_metafields env snap true).skipped =
      (Transfer.import_metafields env snap false).skipped := by
  unfold Transfer.import_metafields
  refine ⟨?_, ?_, ?_, ?_⟩
  · simp only [Transfer.defsPhase_eq, Transfer.setPhase_eq, Transfer.create_dry_trace,
      Transfer.setPhaseStep_dry_trace, ite_self]
    simp [List.flatMap_def]
  · simp [Transfer.defsPhase_eq]
  · simp only [Transfer.setPhase_eq]
    have hmap : ∀ recs : List Transfer.SnapRecord,
        (recs.map fun r => (Transfer.setPhaseStep env.productByHandle env.mfSetOk true r).1) =
          recs.map fun r => (Transfer.setPhaseStep env.productByHandle env.mfSetOk false r).1 :=
      fun recs => List.map_congr_left fun r _ =>
        Transfer.setPhaseStep_counts_dry env.productByHandle env.mfSetOk r hok
    have hmap2 : ∀ recs : List Transfer.SnapRecord,
        (recs.map fun r => (Transfer.setPhaseStep env.collectionByHandle env.mfSetOk true r).1) =
          recs.map fun r => (Transfer.setPhaseStep env.collectionByHandle env.mfSetOk false r).1 :=
      fun recs => List.map_congr_left fun r _ =>
        Transfer.setPhaseStep_counts_dry env.collectionByHandle env.mfSetOk r hok
    simp [hmap, hmap2]
  · simp [Transfer.setPhase_eq]

/-- Witness for `dry_run_equiv` at the concrete environment `env0` and
snapshot `snap0`. -/
theorem dry_run_equiv_witness :
    (Transfer.import_metafields Transfer.env0 Transfer.snap0 true).trace = [] ∧
    (Transfer.import_metafields Transfer.env0 Transfer.snap0 true).definitionsCreated =
      (Transfer.import_metafields Transfer.env0 Transfer.snap0 false).definitionsCreated ∧
    (Transfer.import_metafields Transfer.env0 Transfer.snap0 true).metafieldsSet =
      (Transfer.import_metafields Transfer.env0 Transfer.snap0 false).metafieldsSet ∧
    (Transfer.import_metafields Transfer.env0 Transfer.snap0 true).skipped =
      (Transfer.import_metafields Transfer.env0 Transfer.snap0 false).skipped :=
  dry_run_equiv Transfer.env0 Transfer.snap0 fun _ => rfl

theorem Transfer.defCreate_mem_defsPhase (ownerType : String) (existing : List String)
    (dryRun : Bool) (needed : List (String × String × String))
    (ns key name ot tn : String)
    (hmem : MCall.defCreate ns key name ot tn ∈ (defsPhase ownerType existing dryRun needed).2) :
    ¬(ns = "shopify" ∨ Py.pyStartsWith ns "shopify--" = true) := by
  rw [defsPhase_eq] at hmem
  simp only [List.mem_flatMap] at hmem
  obtain ⟨t, -, ht⟩ := hmem
  by_cases hc : existing.contains (t.1 ++ "|" ++ t.2.1) = true
  · rw [if_pos hc] at ht
    simp at ht
  · rw [if_neg hc] at ht
    unfold create_metafield_definition at ht
    by_cases hres : (decide (t.1 = "shopify") || Py.pyStartsWith t.1 "shopify--") = true
    · rw [if_pos hres] at ht
      simp at ht
    · rw [if_neg hres] at ht
      simp only [Bool.or_eq_true, decide_eq_true_eq, not_or] at hres
      cases dryRun
      · simp only [Bool.not_false, if_true, List.mem_singleton, MCall.defCreate.injEq] at ht
        obtain ⟨rfl, -, -, -, -⟩ := ht
        intro hr
        rcases hr with hr | hr
        · exact hres.1 hr
        · exact absurd hr (by simpa using hres.2)
      · simp at ht

theorem Transfer.defCreate_not_mem_step (lookup : String → Option String) (setOk : String → Bool)
    (dryRun : Bool) (r : SnapRecord) (ns key name ot tn : String) :
    MCall.defCreate ns key name ot tn ∉ (setPhaseStep lookup setOk dryRun r).2.2 := by
  unfold setPhaseStep
  rcases hr : r.handle with _ | h
  · simp
  · by_cases hh : h = ""
    · simp [hh]
    · rcases hl : lookup h with _ | gid
      · simp [hh, hl]
      · by_cases hg : gid = ""
        · simp [hh, hl, hg]
        · by_cases he : (metafieldInputs gid r.metafields).isEmpty
          · simp [hh, hl, hg, he]
          · cases dryRun
            · by_cases hs : setOk gid <;> simp [hh, hl, hg, he, hs]
            · simp [hh, hl, hg, he]

theorem Transfer.defCreate_not_mem_setPhase (lookup : String → Option String)
    (setOk : String → Bool) (dryRun : Bool) (recs : List SnapRecord)
    (ns key name ot tn : String) :
    MCall.defCreate ns key name ot tn ∉ (setPhase lookup setOk dryRun recs).2.2 := by
  rw [setPhase_eq]
  intro hmem
  simp only [List.mem_flatMap] at hmem
  obtain ⟨r, -, hr⟩ := hmem
  exact defCreate_not_mem_step lookup setOk dryRun r ns key name ot tn hr

/-- C6: for a restricted namespace (`shopify`, or any namespace beginning with
`shopify--`) `create_metafield_definition` returns `None` without issuing the
definition-create mutation, in dry-run and live mode alike; consequently no
run of `import_metafields` ever emits a definition-create call whose namespace
is restricted. -/
theorem restricted_namespace_never_created :
    (∀ ns key name ownerType typeName : String, ∀ dryRun : Bool,
      (ns = "shopify" ∨ Py.pyStartsWith ns "shopify--" = true) →
      Transfer.create_metafield_definition ns key name ownerType typeName dryRun = (none, [])) ∧
    ∀ (env : Transfer.ImportEnv) (snap : Transfer.Snapshot) (dryRun : Bool)
      (ns key name ownerType typeName : String),
      Transfer.MCall.defCreate ns key name ownerType typeName ∈
        (Transfer.import_metafields env snap dryRun).trace →
      ¬(ns = "shopify" ∨ Py.pyStartsWith ns "shopify--" = true) := by
  constructor
  · intro ns key name ot tn dryRun h
    unfold Transfer.create_metafield_definition
    have hres : (decide (ns = "shopify") || Py.pyStartsWith ns "shopify--") = true := by
      rcases h with h | h
      · simp [h]
      · simp [h]
    rw [if_pos hres]
  · intro env snap dryRun ns key name ot tn hmem
    simp only [Transfer.import_metafields, List.mem_append] at hmem
    rcases hmem with ((h | h) | h) | h
    · exact Transfer.defCreate_mem_defsPhase _ _ _ _ _ _ _ _ _ h
    · exact Transfer.defCreate_mem_defsPhase _ _ _ _ _ _ _ _ _ h
    · exact absurd h (Transfer.defCreate_not_mem_setPhase _ _ _ _ _ _ _ _ _)
    · exact absurd h (Transfer.defCreate_not_mem_setPhase _ _ _ _ _ _ _ _ _)

/-- Witness for `restricted_namespace_never_created` at the namespace
`"shopify"`. -/
theorem restricted_namespace_witness :
    Transfer.create_metafield_definition "shopify" "material" "Shopify Material" "PRODUCT"
      "single_line_text_field" false = (none, []) :=
  restricted_namespace_never_created.1 "shopify" "material" "Shopify Material" "PRODUCT"
    "single_line_text_field" false (Or.inl rfl)

theorem Py.prefB_iff (p l : List Char) : prefB p l = true ↔ p <+: l := by
  induction p generalizing l with
  | nil => simp [prefB, List.nil_prefix]
  | cons a as ih =>
      cases l with
      | nil => simp [prefB]
      | cons b bs => simp [prefB, ih, List.cons_prefix_cons]

theorem Py.infB_iff (p l : List Char) : infB p l = true ↔ p <:+: l := by
  induction l with
  | nil =>
      simp [infB, List.infix_nil, List.isEmpty_iff]
  | cons c cs ih =>
      simp [infB, prefB_iff, ih, List.infix_cons_iff]

theorem Py.infix_map (f : Char → Char) {l₁ l₂ : List Char} (h : l₁ <:+: l₂) :
    l₁.map f <:+: l₂.map f := by
  obtain ⟨u, v, huv⟩ := h
  exact ⟨u.map f, v.map f, by rw [← huv]; simp⟩

theorem Py.mem_infix_join (t : String) (ts : List String) (ht : t ∈ ts) :
    t.data <:+: (pyJoin ", " ts).data := by
  induction ts with
  | nil => cases ht
  | cons a rest ih =>
      cases rest with
      | nil =>
          obtain rfl := List.mem_singleton.mp ht
          exact List.infix_refl _
      | cons b bs =>
          have hdata : (pyJoin ", " (a :: b :: bs)).data =
              (a.data ++ (", " : String).data) ++ (pyJoin ", " (b :: bs)).data := by
            show ((a ++ ", ") ++ pyJoin ", " (b :: bs)).data = _
            simp [String.data_append]
          rcases List.mem_cons.mp ht with rfl | hmem
          · exact ⟨[], (", " : String).data ++ (pyJoin ", " (b :: bs)).data, by
              rw [hdata]; simp [List.append_assoc]⟩
          · obtain ⟨u, v, huv⟩ := ih hmem
            exact ⟨(a.data ++ (", " : String).data) ++ u, v, by
              rw [hdata, ← huv]; simp [List.append_assoc]⟩

theorem Py.contains_rosa_of_mem (ts : List String) (ht : "rosa" ∈ ts) :
    strContains (pyLower (pyJoin ", " ts)) "rosa" = true := by
  show infB ("rosa" : String).data ((pyJoin ", " ts).data.map Char.toLower) = true
  rw [infB_iff]
  have h2 := infix_map Char.toLower (mem_infix_join "rosa" ts ht)
  rwa [show (("rosa" : String).data.map Char.toLower) = ("rosa" : String).data from by decide]
    at h2

theorem Py.pyJoin_append_singleton (sep : String) (ts : List String) (t : String) :
    pyJoin sep (ts ++ [t]) = if ts = [] then t else pyJoin sep ts ++ sep ++ t := by
  induction ts with
  | nil => simp [pyJoin]
  | cons a rest ih =>
      cases rest with
      | nil => simp [pyJoin]
      | cons b bs =>
          have h1 : pyJoin sep ((a :: b :: bs) ++ [t]) =
              a ++ sep ++ pyJoin sep ((b :: bs) ++ [t]) := rfl
          have h2 : pyJoin sep (a :: b :: bs) = a ++ sep ++ pyJoin sep (b :: bs) := rfl
          rw [h1, ih, h2]
          simp [String.append_assoc]

theorem Py.string_ne_empty_iff (s : String) : s ≠ "" ↔ s.data ≠ [] :=
  not_congr String.ext_iff

theorem Py.pyJoin_ne_empty (ts : List String) (hne : ts ≠ []) (h : ∀ t ∈ ts, t ≠ "") :
    pyJoin ", " ts ≠ "" := by
  cases ts with
  | nil => exact absurd rfl hne
  | cons a rest =>
      cases rest with
      | nil => exact h a (List.mem_cons_self _ _)
      | cons b bs =>
          rw [string_ne_empty_iff]
          show ((a ++ ", ") ++ pyJoin ", " (b :: bs)).data ≠ []
          simp [String.data_append]

theorem Py.stripChars_cons_space (l : List Char) : stripChars (' ' :: l) = stripChars l := by
  unfold stripChars
  rw [List.dropWhile_cons]
  simp [isStrSpace, isPySpace]

theorem Py.splitCommaList_ne_nil (l : List Char) : splitCommaList l ≠ [] := by
  cases l with
  | nil => simp [splitCommaList]
  | cons c cs =>
      simp only [splitCommaList]
      split <;> simp

theorem Py.splitCommaList_comma (cs : List Char) :
    splitCommaList (',' :: cs) = [] :: splitCommaList cs := by
  simp [splitCommaList]

theorem Py.splitCommaList_cons_ne (c : Char) (cs : List Char) (hc : ¬c = ',') :
    splitCommaList (c :: cs) =
      (c :: (splitCommaList cs).headD []) :: (splitCommaList cs).tail := by
  simp [splitCommaList, hc]

theorem Py.splitCommaList_append_nocomma (xs ys : List Char) (h : ',' ∉ xs) :
    splitCommaList (xs ++ ys) =
      (xs ++ (splitCommaList ys).headD []) :: (splitCommaList ys).tail := by
  induction xs with
  | nil =>
      rcases hsp : splitCommaList ys with _ | ⟨a, l⟩
      · exact absurd hsp (splitCommaList_ne_nil ys)
      · simp [hsp]
  | cons x xs ih =>
      have hx : ¬x = ',' := fun hxx => h (by simp [hxx])
      rw [List.cons_append, splitCommaList_cons_ne x _ hx,
        ih fun hm => h (List.mem_cons_of_mem _ hm)]
      simp

theorem Py.splitCommaList_nocomma (xs : List Char) (h : ',' ∉ xs) :
    splitCommaList xs = [xs] := by
  have := splitCommaList_append_nocomma xs [] h
  simpa [splitCommaList] using this

theorem PinkTagger.mapStrip_split_space (rest : List Char) :
    ((Py.splitCommaList (' ' :: rest)).map fun cs => (⟨Py.stripChars cs⟩ : String)) =
      (Py.splitCommaList rest).map fun cs => (⟨Py.stripChars cs⟩ : String) := by
  rw [Py.splitCommaList_cons_ne ' ' rest (by decide)]
  rcases hsp : Py.splitCommaList rest with _ | ⟨h0, t0⟩
  · exact absurd hsp (Py.splitCommaList_ne_nil rest)
  · simp [hsp, Py.stripChars_cons_space]

theorem PinkTagger.tagsArray_join (ts : List String) (hwf : ∀ t ∈ ts, wfTag t) :
    tagsArray (Py.pyJoin ", " ts) = ts := by
  induction ts with
  | nil => decide
  | cons a rest ih =>
      obtain ⟨ha_ne, ha_strip, ha_comma⟩ := hwf a (List.mem_cons_self _ _)
      have hstrip : Py.stripChars a.data = a.data := congrArg String.data ha_strip
      cases rest with
      | nil =>
          rw [show Py.pyJoin ", " [a] = a from rfl]
          unfold tagsArray
          rw [Py.splitCommaList_nocomma a.data ha_comma]
          simp [hstrip, ha_ne]
      | cons b bs =>
          have hwfrest : ∀ t ∈ b :: bs, wfTag t := fun t ht => hwf t (List.mem_cons_of_mem _ ht)
          have hdata : (Py.pyJoin ", " (a :: b :: bs)).data =
              a.data ++ (',' :: ' ' :: (Py.pyJoin ", " (b :: bs)).data) := by
            show ((a ++ ", ") ++ Py.pyJoin ", " (b :: bs)).data = _
            simp [String.data_append]
          unfold tagsArray
          rw [hdata, Py.splitCommaList_append_nocomma a.data _ ha_comma,
            Py.splitCommaList_comma]
          simp only [List.headD_cons, List.tail_cons, List.append_nil]
          rw [List.map_cons, mapStrip_split_space, hstrip]
          rw [show (⟨a.data⟩ : String) = a from rfl, List.filter_cons]
          have ihh := ih hwfrest
          unfold tagsArray at ihh
          rw [ihh]
          simp [ha_ne]

theorem PinkTagger.tagsArray_newTags (ts : List String) (hwf : ∀ t ∈ ts, wfTag t) :
    tagsArray (if Py.pyJoin ", " ts ≠ "" then Py.pyJoin ", " ts ++ ", rosa" else "rosa") =
      ts ++ ["rosa"] := by
  have hwf2 : ∀ t ∈ ts ++ ["rosa"], wfTag t := by
    intro t ht
    rcases List.mem_append.mp ht with h | h
    · exact hwf t h
    · obtain rfl := List.mem_singleton.mp h
      exact ⟨by decide, by decide, by decide⟩
  cases ts with
  | nil => decide
  | cons a rest =>
      have hne : Py.pyJoin ", " (a :: rest) ≠ "" :=
        Py.pyJoin_ne_empty _ (by simp) fun t ht => (hwf t ht).1
      rw [if_pos hne]
      have hjoin : Py.pyJoin ", " ((a :: rest) ++ ["rosa"]) =
          Py.pyJoin ", " (a :: rest) ++ ", rosa" := by
        rw [Py.pyJoin_append_singleton, if_neg (by simp), String.append_assoc,
          show (", " : String) ++ "rosa" = ", rosa" from by decide]
      rw [← hjoin]
      exact tagsArray_join _ hwf2

theorem PinkTagger.pyJoin_snoc_rosa (ts : List String) (hwf : ∀ t ∈ ts, wfTag t) :
    Py.pyJoin ", " (ts ++ ["rosa"]) =
      if Py.pyJoin ", " ts ≠ "" then Py.pyJoin ", " ts ++ ", rosa" else "rosa" := by
  cases ts with
  | nil => decide
  | cons a rest =>
      have hne := Py.pyJoin_ne_empty (a :: rest) (by simp) fun t ht => (hwf t ht).1
      rw [if_pos hne, Py.pyJoin_append_singleton, if_neg (by simp), String.append_assoc,
        show (", " : String) ++ "rosa" = ", rosa" from by decide]

theorem PinkTagger.tagMutation?_id (p : TagRecord) (m : String × List String)
    (h : tagMutation? p = some m) : m.1 = p.id := by
  unfold tagMutation? at h
  by_cases h1 : is_pink p.custom_cor = true
  · rw [if_pos h1] at h
    by_cases h2 : Py.strContains (Py.pyLower p.tags) "rosa" = true
    · rw [if_pos h2] at h
      exact absurd h (by simp)
    · rw [if_neg h2] at h
      injection h with h'
      rw [← h']
  · rw [if_neg h1] at h
    exact absurd h (by simp)

theorem PinkTagger.find_mut (store : List StoreProduct)
    (hids : (store.map fun sp => sp.id).Nodup) (sp : StoreProduct) (hsp : sp ∈ store) :
    (update_product_tags (store.map fetchRecord)).find? (fun m => m.1 = sp.id) =
      tagMutation? (fetchRecord sp) := by
  induction store with
  | nil => cases hsp
  | cons a rest ih =>
      rw [List.map_cons] at hids
      obtain ⟨hnotin, hnd⟩ := List.nodup_cons.mp hids
      rw [List.map_cons]
      unfold update_product_tags
      rw [List.filterMap_cons]
      rcases hma : tagMutation? (fetchRecord a) with _ | m
      · rcases List.mem_cons.mp hsp with rfl | hsp'
        · simp only [hma]
          rw [List.find?_eq_none]
          intro x hx
          obtain ⟨p, hp, hpm⟩ := List.mem_filterMap.mp hx
          obtain ⟨q, hq, rfl⟩ := List.mem_map.mp hp
          have hid : x.1 = q.id := tagMutation?_id _ _ hpm
          simp only [decide_eq_true_eq]
          intro hcon
          exact hnotin (List.mem_map.mpr ⟨q, hq, hid.symm.trans hcon⟩)
        · simp only [hma]
          simpa [update_product_tags] using ih hnd hsp'
      · have hmid : m.1 = a.id := tagMutation?_id _ _ hma
        rcases List.mem_cons.mp hsp with rfl | hsp'
        · simp only [hma]
          simp [List.find?_cons, hmid]
        · simp only [hma]
          have hne : ¬(m.1 = sp.id) := by
            rw [hmid]
            intro hcon
            exact hnotin (hcon ▸ List.mem_map.mpr ⟨sp, hsp', rfl⟩)
          rw [List.find?_cons]
          simp only [hne, decide_eq_false, Bool.false_eq_true]
          simpa [update_product_tags] using ih hnd hsp'

theorem PinkTagger.second_run_record (store : List StoreProduct)
    (hids : (store.map fun sp => sp.id).Nodup)
    (hwf : ∀ sp ∈ store, ∀ t ∈ sp.tags, wfTag t)
    (sp : StoreProduct) (hsp : sp ∈ store) :
    updatedTags (fetchRecord
        (match (update_product_tags (store.map fetchRecord)).find? fun m => m.1 = sp.id with
         | some m => { sp with tags := m.2 }
         | none => sp)) = updatedTags (fetchRecord sp) ∧
    tagMutation? (fetchRecord
        (match (update_product_tags (store.map fetchRecord)).find? fun m => m.1 = sp.id with
         | some m => { sp with tags := m.2 }
         | none => sp)) = none := by
  rw [find_mut store hids sp hsp]
  rcases hm : tagMutation? (fetchRecord sp) with _ | m
  · simp [hm]
  · simp only [hm]
    have hm2 := hm
    unfold tagMutation? at hm2
    by_cases h1 : is_pink (fetchRecord sp).custom_cor = true
    · rw [if_pos h1] at hm2
      by_cases h2 : Py.strContains (Py.pyLower (fetchRecord sp).tags) "rosa" = true
      · rw [if_pos h2] at hm2
        exact absurd hm2 (by simp)
      · rw [if_neg h2] at hm2
        injection hm2 with hm3
        have harr : m.2 = sp.tags ++ ["rosa"] := by
          rw [← hm3]
          show tagsArray (if Py.pyJoin ", " sp.tags ≠ "" then
            Py.pyJoin ", " sp.tags ++ ", rosa" else "rosa") = sp.tags ++ ["rosa"]
          exact tagsArray_newTags sp.tags (hwf sp hsp)
        have hfetch : fetchRecord { sp with tags := m.2 } =
            ⟨sp.id, sp.handle, sp.title, Py.pyJoin ", " (sp.tags ++ ["rosa"]),
              extractCor sp.metafields⟩ := by
          simp [fetchRecord, harr]
        have hcont : Py.strContains (Py.pyLower (Py.pyJoin ", " (sp.tags ++ ["rosa"]))) "rosa"
            = true :=
          Py.contains_rosa_of_mem _ (List.mem_append.mpr (Or.inr (List.mem_singleton.mpr rfl)))
        have h1' : is_pink (extractCor sp.metafields) = true := h1
        have h2' : Py.strContains (Py.pyLower (fetchRecord sp).tags) "rosa" = false := by
          revert h2
          cases Py.strContains (Py.pyLower (fetchRecord sp).tags) "rosa" <;> simp
        constructor
        · rw [hfetch]
          unfold updatedTags
          simp only [hcont, h1, h1', h2', Bool.not_true, Bool.not_false, Bool.and_false,
            Bool.and_true, if_false, if_true, Bool.false_eq_true]
          show Py.pyJoin ", " (sp.tags ++ ["rosa"]) =
            if Py.pyJoin ", " sp.tags ≠ "" then Py.pyJoin ", " sp.tags ++ ", rosa" else "rosa"
          exact pyJoin_snoc_rosa sp.tags (hwf sp hsp)
        · rw [hfetch]
          unfold tagMutation?
          simp [h1', hcont]
    · rw [if_neg h1] at hm2
      exact absurd hm2 (by simp)

theorem PinkTagger.save_map_updated (products : List TagRecord) :
    (save_products_to_csv products).map (fun row => row.updated_tags) =
      products.map updatedTags := by
  unfold save_products_to_csv
  rw [List.map_map]
  rfl

/-- C8 (amended): a pink-classified record whose serialised tags already
contain `"rosa"` (case-insensitively) keeps `updated_tags` equal to its
current tags and triggers no update mutation; and when every tag is well
formed (non-empty, free of commas, and unchanged by `str.strip()` — no
leading or trailing character of the `str.isspace()` class, as Shopify tags
are) and product ids are distinct, a second run of the tagging pipeline on
the store left by a completed live first run writes the same `updated_tags`
column as the first run and performs zero mutations.  Without tag
well-formedness the re-serialisation of the split/stripped tag array can
change the `updated_tags` text, as the counterexample shows. -/
theorem tagging_idempotent (store : List PinkTagger.StoreProduct)
    (hids : (store.map fun sp => sp.id).Nodup)
    (hwf : ∀ sp ∈ store, ∀ t ∈ sp.tags, PinkTagger.wfTag t) :
    (∀ p : PinkTagger.TagRecord, Py.strContains (Py.pyLower p.tags) "rosa" = true →
      PinkTagger.updatedTags p = p.tags ∧ PinkTagger.tagMutation? p = none) ∧
    (PinkTagger.save_products_to_csv ((PinkTagger.storeAfterRun store).map
        PinkTagger.fetchRecord)).map (fun row => row.updated_tags) =
      (PinkTagger.save_products_to_csv (store.map PinkTagger.fetchRecord)).map
        (fun row => row.updated_tags) ∧
    PinkTagger.update_product_tags ((PinkTagger.storeAfterRun store).map
      PinkTagger.fetchRecord) = [] := by
  refine ⟨?_, ?_, ?_⟩
  · intro p hcont
    constructor
    · unfold PinkTagger.updatedTags
      simp [hcont]
    · unfold PinkTagger.tagMutation?
      by_cases hp : PinkTagger.is_pink p.custom_cor = true
      · simp [hp, hcont]
      · simp [hp]
  · rw [PinkTagger.save_map_updated, PinkTagger.save_map_updated]
    unfold PinkTagger.storeAfterRun PinkTagger.applyMutations
    rw [List.map_map, List.map_map, List.map_map]
    refine List.map_congr_left fun sp hsp => ?_
    exact (PinkTagger.second_run_record store hids hwf sp hsp).1
  · unfold PinkTagger.update_product_tags
    rw [List.filterMap_eq_nil_iff]
    intro p hp
    unfold PinkTagger.storeAfterRun PinkTagger.applyMutations at hp
    rw [List.map_map] at hp
    obtain ⟨q, hq, rfl⟩ := List.mem_map.mp hp
    exact (PinkTagger.second_run_record store hids hwf q hq).2

/-- C8 counterexample: on a store whose single pink product carries the tag
`"x,y"` (a comma inside one tag), the first run writes `updated_tags`
`"x,y, rosa"` but the second run, reading the store left by the first run's
live update, writes `"x, y, rosa"`: the two runs' outputs differ.  The
second run still issues no mutation, since the first run's update wrote the
literal tag `"rosa"`. -/
theorem tagging_idempotence_counterexample :
    (PinkTagger.save_products_to_csv (PinkTagger.commaStore.map PinkTagger.fetchRecord)).map
        (fun row => row.updated_tags) = ["x,y, rosa"] ∧
    (PinkTagger.save_products_to_csv ((PinkTagger.storeAfterRun PinkTagger.commaStore).map
        PinkTagger.fetchRecord)).map (fun row => row.updated_tags) = ["x, y, rosa"] ∧
    (PinkTagger.save_products_to_csv ((PinkTagger.storeAfterRun PinkTagger.commaStore).map
        PinkTagger.fetchRecord)).map (fun row => row.updated_tags) ≠
      (PinkTagger.save_products_to_csv (PinkTagger.commaStore.map PinkTagger.fetchRecord)).map
        (fun row => row.updated_tags) ∧
    PinkTagger.update_product_tags ((PinkTagger.storeAfterRun PinkTagger.commaStore).map
      PinkTagger.fetchRecord) = [] := by
  decide

/-- Witness for `tagging_idempotent` at the concrete well-formed store
`wfStore`. -/
theorem tagging_idempotent_witness :
    (PinkTagger.save_products_to_csv ((PinkTagger.storeAfterRun PinkTagger.wfStore).map
        PinkTagger.fetchRecord)).map (fun row => row.updated_tags) =
      (PinkTagger.save_products_to_csv (PinkTagger.wfStore.map PinkTagger.fetchRecord)).map
        (fun row => row.updated_tags) ∧
    PinkTagger.update_product_tags ((PinkTagger.storeAfterRun PinkTagger.wfStore).map
      PinkTagger.fetchRecord) = [] :=
  ⟨(tagging_idempotent PinkTagger.wfStore (by decide) (by decide)).2.1,
   (tagging_idempotent PinkTagger.wfStore (by decide) (by decide)).2.2⟩

theorem Py.lexLe_total (a b : List Char) : lexLe a b = true ∨ lexLe b a = true := by
  induction a generalizing b with
  | nil => left; rfl
  | cons x xs ih =>
      cases b with
      | nil => right; rfl
      | cons y ys =>
          by_cases h1 : x.toNat < y.toNat
          · left; simp [lexLe, h1]
          · by_cases h2 : y.toNat < x.toNat
            · right; simp [lexLe, h2]
            · rcases ih ys with h | h
              · left; simp [lexLe, h1, h2, h]
              · right; simp [lexLe, h1, h2, h]

theorem Py.lexLe_trans (a b c : List Char) (hab : lexLe a b = true) (hbc : lexLe b c = true) :
    lexLe a c = true := by
  induction a generalizing b c with
  | nil => rfl
  | cons x xs ih =>
      cases b with
      | nil => simp [lexLe] at hab
      | cons y ys =>
          cases c with
          | nil => simp [lexLe] at hbc
          | cons z zs =>
              simp only [lexLe] at hab hbc ⊢
              by_cases h1 : x.toNat < y.toNat
              · by_cases h2 : y.toNat < z.toNat
                · have h3 : x.toNat < z.toNat := by omega
                  simp [h3]
                · by_cases h4 : z.toNat < y.toNat
                  · rw [if_neg h2, if_pos h4] at hbc
                    exact absurd hbc (by simp)
                  · have h3 : x.toNat < z.toNat := by omega
                    simp [h3]
              · by_cases h5 : y.toNat < x.toNat
                · rw [if_neg h1, if_pos h5] at hab
                  exact absurd hab (by simp)
                · rw [if_neg h1, if_neg h5] at hab
                  by_cases h2 : y.toNat < z.toNat
                  · have h3 : x.toNat < z.toNat := by omega
                    simp [h3]
                  · by_cases h4 : z.toNat < y.toNat
                    · rw [if_neg h2, if_pos h4] at hbc
                      exact absurd hbc (by simp)
                    · rw [if_neg h2, if_neg h4] at hbc
                      have h3 : ¬x.toNat < z.toNat := by omega
                      have h6 : ¬z.toNat < x.toNat := by omega
                      rw [if_neg h3, if_neg h6]
                      exact ih ys zs hab hbc

instance : IsTotal String fun a b => Py.strLe a b = true :=
  ⟨fun a b => Py.lexLe_total a.data b.data⟩

instance : IsTrans String fun a b => Py.strLe a b = true :=
  ⟨fun a b c => Py.lexLe_trans a.data b.data c.data⟩

theorem MetaCsv.get_all_custom_keys_sorted (products : List CsvProduct) :
    (get_all_custom_keys products).Sorted fun a b => Py.strLe a b = true :=
  List.sorted_insertionSort _ _

theorem MetaCsv.get_all_custom_keys_nodup (products : List CsvProduct) :
    (get_all_custom_keys products).Nodup :=
  ((List.perm_insertionSort _ _).nodup_iff).mpr (List.nodup_dedup _)

theorem MetaCsv.mem_get_all_custom_keys (products : List CsvProduct) (c : String) :
    c ∈ get_all_custom_keys products ↔
      ∃ p ∈ products, ∃ mf ∈ p.metafields, mf.ns = "custom" ∧ mf.key ≠ "" ∧
        c = "product.metafields.custom." ++ mf.key := by
  unfold get_all_custom_keys Py.sortStrings
  rw [(List.perm_insertionSort _ _).mem_iff, List.mem_dedup, List.mem_flatMap]
  constructor
  · rintro ⟨p, hp, hmem⟩
    obtain ⟨mf, hmf, heq⟩ := List.mem_filterMap.mp hmem
    by_cases hns : mf.ns = "custom"
    · rw [if_pos hns] at heq
      by_cases hk : mf.key ≠ ""
      · rw [if_pos hk] at heq
        exact ⟨p, hp, mf, hmf, hns, hk, (Option.some.inj heq).symm⟩
      · rw [if_neg hk] at heq
        exact absurd heq (by simp)
    · rw [if_neg hns] at heq
      exact absurd heq (by simp)
  · rintro ⟨p, hp, mf, hmf, hns, hk, rfl⟩
    exact ⟨p, hp, List.mem_filterMap.mpr ⟨mf, hmf, by rw [if_pos hns, if_pos hk]⟩⟩

theorem MetaCsv.find?_map_update (l : List (String × Option String)) (k : String)
    (v : Option String) (h : l.any (fun p => p.1 = k) = true) :
    ((l.map fun p => if p.1 = k then (k, v) else p).find? fun p => p.1 = k) = some (k, v) := by
  induction l with
  | nil => simp at h
  | cons p l ih =>
      by_cases hp : p.1 = k
      · simp [hp, List.find?_cons]
      · have hany : l.any (fun p => p.1 = k) = true := by
          rcases List.any_eq_true.mp h with ⟨q, hq, hqk⟩
          rcases List.mem_cons.mp hq with rfl | hq'
          · exact absurd (of_decide_eq_true hqk) hp
          · exact List.any_eq_true.mpr ⟨q, hq', hqk⟩
        simp [hp, List.find?_cons, ih hany]

theorem MetaCsv.find?_map_update_ne (l : List (String × Option String)) (k : String)
    (v : Option String) (k' : String) (h : k' ≠ k) :
    ((l.map fun p => if p.1 = k then (k, v) else p).find? fun p => p.1 = k') =
      l.find? fun p => p.1 = k' := by
  induction l with
  | nil => rfl
  | cons p l ih =>
      by_cases hp : p.1 = k
      · have h2 : ¬(p.1 = k') := fun hc => h (hc.symm.trans hp)
        simp [hp, List.find?_cons, h2, show ¬(k = k') from fun hc => h hc.symm, ih]
      · by_cases hpk : p.1 = k' <;> simp [hp, hpk, List.find?_cons, ih, h]

theorem MetaCsv.assocFind_update_self (l : List (String × Option String)) (k : String)
    (v : Option String) : assocFind (assocUpdate l k v) k = some v := by
  unfold assocFind assocUpdate
  by_cases h : l.any fun p => p.1 = k
  · rw [if_pos h, find?_map_update l k v h]
    rfl
  · rw [if_neg h, List.find?_append]
    have hnone : l.find? (fun p => p.1 = k) = none := by
      rw [List.find?_eq_none]
      intro q hq hqk
      exact h (List.any_eq_true.mpr ⟨q, hq, hqk⟩)
    rw [hnone]
    simp [List.find?_cons, Option.or]

theorem MetaCsv.assocFind_update_ne (l : List (String × Option String)) (k : String)
    (v : Option String) (k' : String) (h : k' ≠ k) :
    assocFind (assocUpdate l k v) k' = assocFind l k' := by
  unfold assocFind assocUpdate
  by_cases hany : l.any fun p => p.1 = k
  · rw [if_pos hany, find?_map_update_ne l k v k' h]
  · rw [if_neg hany, List.find?_append]
    have hkk : ¬(k = k') := fun hc => h hc.symm
    have h2 : ([(k, v)].find? fun p => p.1 = k') = none := by
      simp [List.find?_cons, hkk]
    rw [h2]
    cases l.find? fun p => p.1 = k' <;> simp [Option.or]

theorem MetaCsv.assocFind_foldl_update (pairs : List (String × Option String))
    (init : List (String × Option String)) (k : String) :
    assocFind (pairs.foldl (fun a kv => assocUpdate a kv.1 kv.2) init) k =
      match (pairs.filter fun kv => kv.1 = k).getLast? with
      | some kv => some kv.2
      | none => assocFind init k := by
  induction pairs generalizing init with
  | nil => simp
  | cons kv rest ih =>
      rw [List.foldl_cons, ih, List.filter_cons]
      rcases hlast : (rest.filter fun kv => kv.1 = k).getLast? with _ | kv'
      · by_cases hk : kv.1 = k
        · have hre : (rest.filter fun kv => kv.1 = k) = [] := List.getLast?_eq_none.mp hlast
          simp [hk, hre, hlast, assocFind_update_self]
        · simp [hk, hlast, assocFind_update_ne init kv.1 kv.2 k fun hc => hk hc.symm]
      · by_cases hk : kv.1 = k
        · have hg : ((kv :: (rest.filter fun kv => kv.1 = k))).getLast? = some kv' := by
            rw [show kv :: (rest.filter fun kv => kv.1 = k) =
              [kv] ++ (rest.filter fun kv => kv.1 = k) from rfl, List.getLast?_append, hlast]
            rfl
          simp [hk, hlast, hg]
        · simp [hk, hlast]

theorem MetaCsv.fold_guard_eq (mfs : List CsvMetafield)
    (init : List (String × Option String)) :
    mfs.foldl
      (fun acc mf =>
        if mf.ns = "custom" then
          assocUpdate acc ("product.metafields.custom." ++ mf.key) mf.value
        else acc) init =
    (mfs.filterMap fun mf =>
      if mf.ns = "custom" then some ("product.metafields.custom." ++ mf.key, mf.value)
      else none).foldl (fun a kv => assocUpdate a kv.1 kv.2) init := by
  induction mfs generalizing init with
  | nil => rfl
  | cons mf rest ih =>
      rw [List.foldl_cons, List.filterMap_cons]
      by_cases hns : mf.ns = "custom"
      · simp only [if_pos hns]
        rw [List.foldl_cons]
        exact ih _
      · simp only [if_neg hns]
        exact ih init

theorem MetaCsv.extract_eq_fold (p : CsvProduct) :
    extract_custom_metafields p =
      (p.metafields.filterMap fun mf =>
        if mf.ns = "custom" then some ("product.metafields.custom." ++ mf.key, mf.value)
        else none).foldl (fun a kv => assocUpdate a kv.1 kv.2) [] := by
  unfold extract_custom_metafields
  exact fold_guard_eq p.metafields []

theorem MetaCsv.filter_customPairs (mfs : List CsvMetafield) (c : String) :
    ((mfs.filterMap fun mf =>
        if mf.ns = "custom" then some ("product.metafields.custom." ++ mf.key, mf.value)
        else none).filter fun kv => kv.1 = c) =
      (mfs.filter fun mf =>
        mf.ns = "custom" && ("product.metafields.custom." ++ mf.key) = c).map
        fun mf => ("product.metafields.custom." ++ mf.key, mf.value) := by
  induction mfs with
  | nil => rfl
  | cons mf rest ih =>
      rw [List.filterMap_cons, List.filter_cons]
      by_cases hns : mf.ns = "custom"
      · by_cases hc : ("product.metafields.custom." ++ mf.key) = c
        · simp [hns, hc, List.filter_cons, ih]
        · simp [hns, hc, List.filter_cons, ih]
      · simp [hns, ih]

theorem MetaCsv.assocUpdate_keys (l : List (String × Option String)) (k : String)
    (v : Option String) :
    (assocUpdate l k v).map (fun kv => kv.1) =
      if l.any (fun p => p.1 = k) then l.map fun kv => kv.1
      else (l.map fun kv => kv.1) ++ [k] := by
  unfold assocUpdate
  by_cases h : l.any fun p => p.1 = k
  · rw [if_pos h, if_pos h, List.map_map]
    refine List.map_congr_left fun q hq => ?_
    by_cases hqk : q.1 = k <;> simp [hqk]
  · rw [if_neg h, if_neg h]
    simp

theorem MetaCsv.fold_update_keys_nodup (pairs : List (String × Option String))
    (init : List (String × Option String)) (h : (init.map fun kv => kv.1).Nodup) :
    ((pairs.foldl (fun a kv => assocUpdate a kv.1 kv.2) init).map fun kv => kv.1).Nodup := by
  induction pairs generalizing init with
  | nil => exact h
  | cons kv rest ih =>
      rw [List.foldl_cons]
      apply ih
      rw [assocUpdate_keys]
      by_cases hany : init.any fun p => p.1 = kv.1
      · rw [if_pos hany]
        exact h
      · rw [if_neg hany]
        rw [List.nodup_append]
        refine ⟨h, List.nodup_singleton _, ?_⟩
        intro x hx hx2
        obtain rfl := List.mem_singleton.mp hx2
        obtain ⟨q, hq, hqk⟩ := List.mem_map.mp hx
        exact hany (List.any_eq_true.mpr ⟨q, hq, decide_eq_true hqk⟩)

theorem MetaCsv.mem_keys_foldl_update (pairs : List (String × Option String))
    (init : List (String × Option String)) (k : String)
    (h : k ∈ ((pairs.foldl (fun a kv => assocUpdate a kv.1 kv.2) init).map fun kv => kv.1)) :
    k ∈ (pairs.map fun kv => kv.1) ∨ k ∈ init.map fun kv => kv.1 := by
  induction pairs generalizing init with
  | nil => right; exact h
  | cons kv rest ih =>
      rw [List.foldl_cons] at h
      rcases ih _ h with h' | h'
      · left
        exact List.mem_cons_of_mem _ h'
      · rw [assocUpdate_keys] at h'
        by_cases hany : init.any fun p => p.1 = kv.1
        · rw [if_pos hany] at h'
          right; exact h'
        · rw [if_neg hany] at h'
          rcases List.mem_append.mp h' with h'' | h''
          · right; exact h''
          · left
            exact List.mem_cons.mpr (Or.inl (List.mem_singleton.mp h''))

theorem MetaCsv.keys_nodup_getLast?_filter (l : List (String × Option String))
    (hnd : (l.map fun kv => kv.1).Nodup) (c : String) :
    (l.filter fun kv => kv.1 = c).getLast? = l.find? fun kv => kv.1 = c := by
  induction l with
  | nil => rfl
  | cons kv rest ih =>
      rw [List.map_cons] at hnd
      obtain ⟨hni, hnd'⟩ := List.nodup_cons.mp hnd
      rw [List.filter_cons, List.find?_cons]
      by_cases hk : kv.1 = c
      · have hempty : (rest.filter fun kv => kv.1 = c) = [] := by
          rw [List.filter_eq_nil_iff]
          intro q hq hqc
          exact hni (List.mem_map.mpr ⟨q, hq, (of_decide_eq_true hqc).trans hk.symm⟩)
        simp [hk, hempty]
      · simp [hk, ih hnd']

theorem MetaCsv.customCol_ne (k s : String) (hs : s.length < 26) :
    "product.metafields.custom." ++ k ≠ s := by
  intro h
  have h1 := congrArg (fun s => s.data.length) h
  simp [String.data_append] at h1
  omega

theorem MetaCsv.customCol_inj (k k' : String)
    (h : "product.metafields.custom." ++ k = "product.metafields.custom." ++ k') : k = k' := by
  have h1 := congrArg String.data h
  simp only [String.data_append] at h1
  exact String.ext (List.append_cancel_left h1)

theorem MetaCsv.assocFind_extract (p : CsvProduct) (c : String) :
    assocFind (extract_custom_metafields p) c =
      match ((p.metafields.filterMap fun mf =>
          if mf.ns = "custom" then some ("product.metafields.custom." ++ mf.key, mf.value)
          else none).filter fun kv => kv.1 = c).getLast? with
      | some kv => some kv.2
      | none => none := by
  rw [extract_eq_fold, assocFind_foldl_update]
  rcases hlast : ((p.metafields.filterMap fun mf =>
      if mf.ns = "custom" then some ("product.metafields.custom." ++ mf.key, mf.value)
      else none).filter fun kv => kv.1 = c).getLast? with _ | kv <;>
    simp [hlast, assocFind]

theorem MetaCsv.assocFind_rowData (p : CsvProduct) (c : String) :
    assocFind (rowData p) c =
      match ((p.metafields.filterMap fun mf =>
          if mf.ns = "custom" then some ("product.metafields.custom." ++ mf.key, mf.value)
          else none).filter fun kv => kv.1 = c).getLast? with
      | some kv => some kv.2
      | none => assocFind [("handle", some p.handle), ("title", some p.title)] c := by
  unfold rowData
  rw [assocFind_foldl_update]
  have hnd : ((extract_custom_metafields p).map fun kv => kv.1).Nodup := by
    rw [extract_eq_fold]
    exact fold_update_keys_nodup _ [] (by simp)
  rw [keys_nodup_getLast?_filter _ hnd c]
  have hE := assocFind_extract p c
  unfold assocFind at hE
  rcases hfind : (extract_custom_metafields p).find? (fun kv => kv.1 = c) with _ | kv
  · rw [hfind] at hE
    rcases hraw : ((p.metafields.filterMap fun mf =>
        if mf.ns = "custom" then some ("product.metafields.custom." ++ mf.key, mf.value)
        else none).filter fun kv => kv.1 = c).getLast? with _ | kv'
    · simp only [hfind, hraw]
    · rw [hraw] at hE
      exact absurd hE (by simp)
  · rw [hfind] at hE
    rcases hraw : ((p.metafields.filterMap fun mf =>
        if mf.ns = "custom" then some ("product.metafields.custom." ++ mf.key, mf.value)
        else none).filter fun kv => kv.1 = c).getLast? with _ | kv'
    · rw [hraw] at hE
      exact absurd hE (by simp)
    · rw [hraw] at hE
      simp only [hfind, hraw]
      simpa using hE

theorem MetaCsv.raw_filter_handle_nil (p : CsvProduct) (c : String) (hlen : c.length < 26) :
    ((p.metafields.filterMap fun mf =>
        if mf.ns = "custom" then some ("product.metafields.custom." ++ mf.key, mf.value)
        else none).filter fun kv => kv.1 = c) = [] := by
  rw [List.filter_eq_nil_iff]
  intro kv hkv hdec
  obtain ⟨mf, hmf, heq⟩ := List.mem_filterMap.mp hkv
  by_cases hns : mf.ns = "custom"
  · rw [if_pos hns] at heq
    obtain rfl := Option.some.inj heq
    exact customCol_ne mf.key c hlen (of_decide_eq_true hdec)
  · rw [if_neg hns] at heq
    exact absurd heq (by simp)

theorem MetaCsv.rowData_handle (p : CsvProduct) :
    assocFind (rowData p) "handle" = some (some p.handle) := by
  rw [assocFind_rowData, raw_filter_handle_nil p "handle" (by decide)]
  simp [assocFind, List.find?_cons]

theorem MetaCsv.rowData_title (p : CsvProduct) :
    assocFind (rowData p) "title" = some (some p.title) := by
  rw [assocFind_rowData, raw_filter_handle_nil p "title" (by decide)]
  simp [assocFind, List.find?_cons]

theorem MetaCsv.render_cell (p : CsvProduct) (c : String)
    (hch : ¬c = "handle") (hct : ¬c = "title") :
    (match assocFind (rowData p) c with
     | some v => v.getD ""
     | none => "") = cellSpec p c := by
  rw [assocFind_rowData, filter_customPairs, List.getLast?_map]
  unfold cellSpec
  rcases hlast : (p.metafields.filter fun mf =>
      mf.ns = "custom" && ("product.metafields.custom." ++ mf.key) = c).getLast? with _ | mf
  · have hch2 : ¬("handle" = c) := fun hc => hch hc.symm
    have hct2 : ¬("title" = c) := fun hc => hct hc.symm
    simp [hlast, assocFind, List.find?_cons, hch2, hct2]
  · simp [hlast]

theorem MetaCsv.rowData_fields_ok (products : List CsvProduct) (p : CsvProduct)
    (hp : p ∈ products)
    (hkeysp : ∀ mf ∈ p.metafields, mf.ns = "custom" → mf.key ≠ "") :
    ((rowData p).any fun kv =>
      !((["handle", "title"] ++ get_all_custom_keys products).contains kv.1)) = false := by
  rw [List.any_eq_false]
  intro kv hkv
  suffices hmem : kv.1 ∈ ["handle", "title"] ++ get_all_custom_keys products by
    have hcont : (["handle", "title"] ++ get_all_custom_keys products).contains kv.1 = true :=
      List.elem_iff.mpr hmem
    rw [hcont]
    simp
  have hkeym : kv.1 ∈ (rowData p).map fun kv => kv.1 := List.mem_map.mpr ⟨kv, hkv, rfl⟩
  unfold rowData at hkeym
  rcases mem_keys_foldl_update _ _ _ hkeym with h' | h'
  · rw [extract_eq_fold] at h'
    have h'' : kv.1 ∈ ((p.metafields.filterMap fun mf =>
        if mf.ns = "custom" then some ("product.metafields.custom." ++ mf.key, mf.value)
        else none).map fun kv => kv.1) := by
      rcases mem_keys_foldl_update _ _ _ h' with h2 | h2
      · exact h2
      · simp at h2
    obtain ⟨kv', hkv', hkey⟩ := List.mem_map.mp h''
    obtain ⟨mf, hmf, heq⟩ := List.mem_filterMap.mp hkv'
    by_cases hns : mf.ns = "custom"
    · rw [if_pos hns] at heq
      obtain rfl := Option.some.inj heq
      refine List.mem_append.mpr (Or.inr ?_)
      rw [mem_get_all_custom_keys]
      exact ⟨p, hp, mf, hmf, hns, hkeysp mf hmf hns, hkey.symm⟩
    · rw [if_neg hns] at heq
      exact absurd heq (by simp)
  · refine List.mem_append.mpr (Or.inl ?_)
    simpa using h'

theorem MetaCsv.writeRow_ok (products : List CsvProduct) (p : CsvProduct)
    (hp : p ∈ products)
    (hkeysp : ∀ mf ∈ p.metafields, mf.ns = "custom" → mf.key ≠ "") :
    writeRow (["handle", "title"] ++ get_all_custom_keys products) (rowData p) =
      .ok (p.handle :: p.title :: (get_all_custom_keys products).map (cellSpec p)) := by
  unfold writeRow
  rw [rowData_fields_ok products p hp hkeysp]
  simp only [Bool.false_eq_true, if_false]
  congr 1
  rw [List.map_append]
  have h1 : (["handle", "title"].map fun f =>
      match assocFind (rowData p) f with
      | some v => v.getD ""
      | none => "") = [p.handle, p.title] := by
    simp [rowData_handle, rowData_title]
  have h2 : ((get_all_custom_keys products).map fun f =>
      match assocFind (rowData p) f with
      | some v => v.getD ""
      | none => "") = (get_all_custom_keys products).map (cellSpec p) := by
    refine List.map_congr_left fun c hc => ?_
    obtain ⟨q, -, mf, -, -, -, rfl⟩ := (mem_get_all_custom_keys products c).mp hc
    exact render_cell p _ (customCol_ne _ _ (by decide)) (customCol_ne _ _ (by decide))
  rw [h1, h2, List.cons_append, List.cons_append, List.nil_append]

theorem MetaCsv.writeRow_error_val (fieldnames : List String)
    (row : List (String × Option String)) (e : String)
    (h : writeRow fieldnames row = .error e) : e = "ValueError" := by
  unfold writeRow at h
  split_ifs at h
  injection h with h'
  exact h'.symm

theorem MetaCsv.writeRows_ok (fieldnames : List String) (ps : List CsvProduct)
    (f : CsvProduct → List String)
    (h : ∀ p ∈ ps, writeRow fieldnames (rowData p) = .ok (f p)) :
    writeRows fieldnames ps = .ok (ps.map f) := by
  induction ps with
  | nil => rfl
  | cons p ps ih =>
      unfold writeRows
      rw [h p (List.mem_cons_self _ _), ih fun q hq => h q (List.mem_cons_of_mem _ hq)]
      rfl

theorem MetaCsv.writeRows_error (fieldnames : List String) (ps : List CsvProduct)
    (h : ∃ p ∈ ps, writeRow fieldnames (rowData p) = .error "ValueError") :
    writeRows fieldnames ps = .error "ValueError" := by
  induction ps with
  | nil =>
      obtain ⟨p, hp, -⟩ := h
      cases hp
  | cons p ps ih =>
      unfold writeRows
      rcases hw : writeRow fieldnames (rowData p) with e | row
      · rw [writeRow_error_val _ _ _ hw]
      · obtain ⟨q, hq, hqe⟩ := h
        rcases List.mem_cons.mp hq with rfl | hq'
        · rw [hw] at hqe
          exact absurd hqe (by simp)
        · rw [ih ⟨q, hq', hqe⟩]

theorem MetaCsv.exists_of_assocFind_some (l : List (String × Option String)) (c : String)
    (v : Option String) (h : assocFind l c = some v) : ∃ kv ∈ l, kv.1 = c := by
  unfold assocFind at h
  rcases hf : l.find? (fun kv => kv.1 = c) with _ | kv
  · rw [hf] at h
    exact absurd h (by simp)
  · have hpa := List.find?_some hf
    exact ⟨kv, List.mem_of_find?_eq_some hf, by simpa using hpa⟩

theorem MetaCsv.writeRow_emptyKey (products : List CsvProduct) (p : CsvProduct)
    (hp : hasEmptyCustomKey p = true) :
    writeRow (["handle", "title"] ++ get_all_custom_keys products) (rowData p) =
      .error "ValueError" := by
  obtain ⟨mf, hmf, hprop⟩ := List.any_eq_true.mp hp
  have hns : mf.ns = "custom" := of_decide_eq_true (Bool.and_elim_left hprop)
  have hkey : mf.key = "" := of_decide_eq_true (Bool.and_elim_right hprop)
  set c := "product.metafields.custom." ++ mf.key with hc
  have hpair : (c, mf.value) ∈ (p.metafields.filterMap fun mf =>
      if mf.ns = "custom" then some ("product.metafields.custom." ++ mf.key, mf.value)
      else none) :=
    List.mem_filterMap.mpr ⟨mf, hmf, by rw [if_pos hns]⟩
  have hfil : (c, mf.value) ∈ ((p.metafields.filterMap fun mf =>
      if mf.ns = "custom" then some ("product.metafields.custom." ++ mf.key, mf.value)
      else none).filter fun kv => kv.1 = c) :=
    List.mem_filter.mpr ⟨hpair, by simp⟩
  have hsome : assocFind (rowData p) c ≠ none := by
    rw [assocFind_rowData]
    rcases hraw : ((p.metafields.filterMap fun mf =>
        if mf.ns = "custom" then some ("product.metafields.custom." ++ mf.key, mf.value)
        else none).filter fun kv => kv.1 = c).getLast? with _ | kv
    · rw [List.getLast?_eq_none] at hraw
      rw [hraw] at hfil
      cases hfil
    · rw [hraw]
      simp
  rcases hv : assocFind (rowData p) c with _ | v
  · exact absurd hv hsome
  obtain ⟨kv, hkv, hkvc⟩ := exists_of_assocFind_some _ _ _ hv
  unfold writeRow
  rw [if_pos ?hcond]
  case hcond =>
    rw [List.any_eq_true]
    refine ⟨kv, hkv, ?_⟩
    have hnotmem : kv.1 ∉ ["handle", "title"] ++ get_all_custom_keys products := by
      rw [hkvc, hc, hkey]
      intro hmem
      rcases List.mem_append.mp hmem with hm | hm
      · rcases List.mem_cons.mp hm with hm' | hm'
        · exact customCol_ne "" "handle" (by decide) hm'
        · exact customCol_ne "" "title" (by decide) (List.mem_singleton.mp hm')
      · obtain ⟨q, -, mf', -, -, hk', heqc⟩ := (mem_get_all_custom_keys products _).mp hm
        exact hk' (customCol_inj _ _ heqc).symm
    have hcont : ((["handle", "title"] ++ get_all_custom_keys products).contains kv.1) = false := by
      cases hx : (["handle", "title"] ++ get_all_custom_keys products).contains kv.1
      · rfl
      · exact absurd (List.elem_iff.mp hx) hnotmem
    rw [hcont]
    rfl

/-- C9 (amended): for a non-empty snapshot in which every `custom`-namespace
metafield key is non-empty, the CSV flattening writes one row per product in
product order; the header is `handle, title` followed by one column per
distinct observed non-empty `custom`-namespace key (named
`product.metafields.custom.{key}`), sorted lexicographically and without
duplicates; and each metafield cell carries the value of the product's last
entry for that column's key, the empty string when the product has no such
entry (or the entry's value is itself empty or null).  Columns are created
only for the `custom` namespace, not for every observed namespace.key
combination, and an empty key would make the row writer raise. -/
theorem export_to_csv_spec (products : List MetaCsv.CsvProduct)
    (hne : products ≠ [])
    (hkeys : ∀ p ∈ products, ∀ mf ∈ p.metafields, mf.ns = "custom" → mf.key ≠ "") :
    ∃ rows,
      MetaCsv.export_to_csv products =
        .ok (["handle", "title"] ++ MetaCsv.get_all_custom_keys products, rows) ∧
      (MetaCsv.get_all_custom_keys products).Sorted (fun a b => Py.strLe a b = true) ∧
      (MetaCsv.get_all_custom_keys products).Nodup ∧
      (∀ c, c ∈ MetaCsv.get_all_custom_keys products ↔
        ∃ p ∈ products, ∃ mf ∈ p.metafields, mf.ns = "custom" ∧
          c = "product.metafields.custom." ++ mf.key) ∧
      rows.length = products.length ∧
      rows = products.map fun p =>
        p.handle :: p.title ::
          (MetaCsv.get_all_custom_keys products).map (MetaCsv.cellSpec p) := by
  refine ⟨products.map fun p =>
      p.handle :: p.title :: (MetaCsv.get_all_custom_keys products).map (MetaCsv.cellSpec p),
    ?_, MetaCsv.get_all_custom_keys_sorted products, MetaCsv.get_all_custom_keys_nodup products,
    ?_, by simp, rfl⟩
  · unfold MetaCsv.export_to_csv
    rw [if_neg (by simpa [List.isEmpty_iff] using hne)]
    show (match MetaCsv.writeRows (["handle", "title"] ++ MetaCsv.get_all_custom_keys products)
        products with
      | .error e => (Except.error e : Except String (List String × List (List String)))
      | .ok rows => .ok (["handle", "title"] ++ MetaCsv.get_all_custom_keys products, rows)) = _
    rw [MetaCsv.writeRows_ok _ products _
      fun p hp => MetaCsv.writeRow_ok products p hp (hkeys p hp)]
  · intro c
    rw [MetaCsv.mem_get_all_custom_keys]
    constructor
    · rintro ⟨p, hp, mf, hmf, hns, -, rfl⟩
      exact ⟨p, hp, mf, hmf, hns, rfl⟩
    · rintro ⟨p, hp, mf, hmf, hns, rfl⟩
      exact ⟨p, hp, mf, hmf, hns, hkeys p hp mf hmf hns, rfl⟩

/-- C9 counterexample: a product whose only metafield lives in the `global`
namespace produces a header with no metafield column at all, although the
claim requires one column per distinct observed namespace.key combination
(here `global.origin`). -/
theorem csv_header_counterexample :
    MetaCsv.export_to_csv [MetaCsv.globalNsProduct] =
      .ok (["handle", "title"], [["alpha", "Alpha"]]) ∧
    MetaCsv.claimHeaderColumns [MetaCsv.globalNsProduct] = ["global.origin"] ∧
    (["handle", "title"] : List String) ≠
      ["handle", "title"] ++ MetaCsv.claimHeaderColumns [MetaCsv.globalNsProduct] :=
  ⟨rfl, by decide, by decide⟩

/-- Witness for `export_to_csv_spec` at the concrete snapshot
`goodProducts`. -/
theorem export_to_csv_spec_witness :
    ∃ rows,
      MetaCsv.export_to_csv MetaCsv.goodProducts =
        .ok (["handle", "title"] ++ MetaCsv.get_all_custom_keys MetaCsv.goodProducts, rows) ∧
      (MetaCsv.get_all_custom_keys MetaCsv.goodProducts).Sorted
        (fun a b => Py.strLe a b = true) ∧
      (MetaCsv.get_all_custom_keys MetaCsv.goodProducts).Nodup ∧
      (∀ c, c ∈ MetaCsv.get_all_custom_keys MetaCsv.goodProducts ↔
        ∃ p ∈ MetaCsv.goodProducts, ∃ mf ∈ p.metafields, mf.ns = "custom" ∧
          c = "product.metafields.custom." ++ mf.key) ∧
      rows.length = MetaCsv.goodProducts.length ∧
      rows = MetaCsv.goodProducts.map fun p =>
        p.handle :: p.title ::
          (MetaCsv.get_all_custom_keys MetaCsv.goodProducts).map (MetaCsv.cellSpec p) :=
  export_to_csv_spec MetaCsv.goodProducts (by decide) (by decide)

/-- C10: a `custom`-namespace metafield with an empty (or missing) key makes
`export_to_csv` raise `ValueError` while writing that product's row, because
`extract_custom_metafields` emits the column `product.metafields.custom.`
which `get_all_custom_keys` excludes from the header; when every
`custom`-namespace key is non-empty, every row is written without error. -/
theorem export_to_csv_empty_key (products : List MetaCsv.CsvProduct) :
    ((∃ p ∈ products, MetaCsv.hasEmptyCustomKey p = true) →
      MetaCsv.export_to_csv products = .error "ValueError") ∧
    ((∀ p ∈ products, MetaCsv.hasEmptyCustomKey p = false) →
      ∃ hr, MetaCsv.export_to_csv products = .ok hr ∧ hr.2.length = products.length) := by
  constructor
  · rintro ⟨p, hp, hpe⟩
    have hne : products ≠ [] := List.ne_nil_of_mem hp
    unfold MetaCsv.export_to_csv
    rw [if_neg (by simpa [List.isEmpty_iff] using hne)]
    show (match MetaCsv.writeRows (["handle", "title"] ++ MetaCsv.get_all_custom_keys products)
        products with
      | .error e => (Except.error e : Except String (List String × List (List String)))
      | .ok rows => .ok (["handle", "title"] ++ MetaCsv.get_all_custom_keys products, rows)) = _
    rw [MetaCsv.writeRows_error _ products
      ⟨p, hp, MetaCsv.writeRow_emptyKey products p hpe⟩]
  · intro hall
    cases products with
    | nil => exact ⟨([], []), rfl, rfl⟩
    | cons p0 rest =>
        have hkeys : ∀ p ∈ p0 :: rest, ∀ mf ∈ p.metafields, mf.ns = "custom" → mf.key ≠ "" := by
          intro p hp mf hmf hns hke
          have h2 := hall p hp
          unfold MetaCsv.hasEmptyCustomKey at h2
          rw [List.any_eq_false] at h2
          exact h2 mf hmf (by simp [hns, hke])
        refine ⟨(["handle", "title"] ++ MetaCsv.get_all_custom_keys (p0 :: rest),
          (p0 :: rest).map fun p => p.handle :: p.title ::
            (MetaCsv.get_all_custom_keys (p0 :: rest)).map (MetaCsv.cellSpec p)), ?_, by simp⟩
        unfold MetaCsv.export_to_csv
        rw [if_neg (by simp)]
        show (match MetaCsv.writeRows (["handle", "title"] ++
            MetaCsv.get_all_custom_keys (p0 :: rest)) (p0 :: rest) with
          | .error e => (Except.error e : Except String (List String × List (List String)))
          | .ok rows =>
              .ok (["handle", "title"] ++ MetaCsv.get_all_custom_keys (p0 :: rest), rows)) = _
        rw [MetaCsv.writeRows_ok _ _ _
          fun p hp => MetaCsv.writeRow_ok _ p hp (hkeys p hp)]

/-- Witness for `export_to_csv_empty_key`: the empty-key product raises, the
well-keyed snapshot writes all rows. -/
theorem export_to_csv_empty_key_witness :
    MetaCsv.export_to_csv [MetaCsv.emptyKeyProduct] = .error "ValueError" ∧
    ∃ hr, MetaCsv.export_to_csv MetaCsv.goodProducts = .ok hr ∧
      hr.2.length = MetaCsv.goodProducts.length :=
  ⟨(export_to_csv_empty_key [MetaCsv.emptyKeyProduct]).1
      ⟨MetaCsv.emptyKeyProduct, List.mem_singleton.mpr rfl, by decide⟩,
   (export_to_csv_empty_key MetaCsv.goodProducts).2 (by decide)⟩
